import Mathlib

/-!
A shallow embedding of the SmartSpoon meal-planning application's model layer
(state container, recipe entities, servings adjustment, bookmark
synchronization, meal-plan engine, ingredient availability, and recipe-detail
validation), together with theorems settling the specification claims.

Conventions of the embedding:
* JavaScript numbers are modelled as `Option ℚ`: `some q` is an ordinary
  finite number, `none` stands for any non-numeric value that can sit in a
  numeric field at runtime (the sentinel strings `"-"`/`"Unavailable"`,
  `NaN`, `Infinity`).  Arithmetic on such values never yields a finite
  number again, which the `js*` helpers mirror.
* JavaScript objects keyed by date strings are modelled as association
  lists keyed by an integer day number (days since the epoch); `Date`
  arithmetic is mirrored by `jsGetDay`/`getMondayOfTheWeek`.
* A function that can throw a `TypeError` at runtime (a lookup that comes
  back `undefined`/`null` and is then dereferenced) returns `Option`;
  `none` marks the thrown exception.
* View/rendering calls and `localStorage` writes are effect-free for the
  model state and are omitted.
-/

set_option linter.unusedVariables false

namespace SmartSpoon

/-! ## JavaScript primitive semantics -/

/-- JS `a + b` on two numeric fields: a finite result only when both operands
are finite numbers; a sentinel string or `NaN` operand poisons the result
(string concatenation respectively `NaN`). -/
def jsAdd : Option ℚ → Option ℚ → Option ℚ
  | some a, some b => some (a + b)
  | _, _ => none

/-- JS `a * b`: non-numeric operands produce `NaN`. -/
def jsMul : Option ℚ → Option ℚ → Option ℚ
  | some a, some b => some (a * b)
  | _, _ => none

/-- JS `a / b`: division by zero gives `Infinity`/`NaN` (non-finite), and
non-numeric operands give `NaN`. -/
def jsDiv : Option ℚ → Option ℚ → Option ℚ
  | some a, some b => if b = 0 then none else some (a / b)
  | _, _ => none

/-- JS `x + 1` for a numeric field (`"Unavailable" + 1` concatenates into a
non-numeric string, `NaN + 1 = NaN`). -/
def jsAddOne (x : Option ℚ) : Option ℚ := x.map (· + 1)

/-- JS `x - 1` for a numeric field (non-numbers give `NaN`). -/
def jsSubOne (x : Option ℚ) : Option ℚ := x.map (· - 1)

/-- Is the pattern `pat` an initial segment of `l`?  (Character-level helper
for JS `String.prototype.includes`.) -/
def charsStartWith : List Char → List Char → Bool
  | [], _ => true
  | _ :: _, [] => false
  | a :: as, b :: bs => a == b && charsStartWith as bs

/-- Does `hay` contain `pat` as a contiguous run? -/
def charsContain : List Char → List Char → Bool
  | [], pat => pat.isEmpty
  | a :: rest, pat => charsStartWith pat (a :: rest) || charsContain rest pat

/-- JS `a.includes(b)`: is `b` a substring of `a`?  (The empty string is a
substring of everything, as in JS.) -/
def jsIncludes (a b : String) : Bool := charsContain a.toList b.toList

/-- JS `String.prototype.trim`, at the character level: strip leading and
trailing whitespace. -/
def trimChars (s : String) : List Char :=
  ((s.toList.dropWhile Char.isWhitespace).reverse.dropWhile Char.isWhitespace).reverse

/-- JS `Array.prototype.findIndex`: index of the first match, `-1` if none. -/
def jsFindIndex {α : Type} (p : α → Bool) (l : List α) : ℤ :=
  match l.findIdx? p with
  | some i => (i : ℤ)
  | none => -1

/-- The effective start index of `Array.prototype.splice`: a negative start
counts from the end, clamped at `0`; a start beyond the end is clamped to the
length. -/
def jsSpliceIndex (len : ℕ) (start : ℤ) : ℕ :=
  if start < 0 then (max ((len : ℤ) + start) 0).toNat else min start.toNat len

/-- JS `l.splice(start, 1)` (the removal part). -/
def jsSpliceRemoveOne {α : Type} (l : List α) (start : ℤ) : List α :=
  l.take (jsSpliceIndex l.length start) ++ l.drop (jsSpliceIndex l.length start + 1)

/-! ## Dates (`sharedUtils.js` / `modelUtils.js`)

A date is its day number (days since the JS epoch, which fell on a
Thursday).  `Date.prototype.getDay` yields the weekday `0..6` counting from
Sunday, and `getMondayOfTheWeek` mirrors
`date.getDate() - date.getDay() + 1` from `modelUtils.js`. -/

def jsGetDay (d : ℤ) : ℤ := (d + 4).emod 7

/-- `getMondayOfTheWeek` (modelUtils.js): the Monday used as the week key for
the week containing day `d`. -/
def getMondayOfTheWeek (d : ℤ) : ℤ := d - jsGetDay d + 1

/-! ## Configuration constants (`config.js`) -/

def RECOMMENDED_PROTEIN_DV : ℚ := 50
def RECOMMENDED_FATS_DV : ℚ := 275
def RECOMMENDED_CARBS_DV : ℚ := 78

def COMMON_PANTRY_ITEMS : List String :=
  ["salt", "table salt", "pepper", "salt and pepper", "salt & pepper",
   "salt&pepper", "black pepper", "ground pepper", "water", "flour", "oil"]

/-- `INGREDIENT_SYNONYMS` from config.js, in object-key insertion order. -/
def INGREDIENT_SYNONYMS : List (String × List String) :=
  [("cheese", ["parmesan", "mozzarella", "cheddar", "feta", "brie", "provolone",
               "gruyere", "gorgonzola", "fontina", "gouda", "burrata",
               "monterey jack", "graviera"]),
   ("bread", ["focaccia", "ciabatta", "sourdough", "baguette", "brioche"]),
   ("pasta", ["spaghetti", "fettuccine", "penne", "rigatoni", "macaroni",
              "lasagna", "ramen", "udon", "soba", "rice noodle"]),
   ("onion", ["shallot"]),
   ("butter", ["margarine"]),
   ("milk", ["soy milk", "almond milk"])]

/-! ## Ingredient availability (`loadRecipeDetails.js`)

`normalizeIngredient` (sharedUtils.js) lower-cases, trims and singularizes;
singularization comes from the external `pluralize` library, so it is a
parameter `sing` of the embedding. -/

def normalizeIngredient (sing : String → String) (s : String) : String :=
  sing s.trim.toLower

/-- The availability object: the three positive shapes carry a
`matchingPantryIngredient` key; the `unavailable` shape carries none (the
source builds it with a `matchedIngredient: null` key instead). -/
inductive Availability where
  | householdItem (matchingPantryIngredient : String)
  | definitelyAvailable (matchingPantryIngredient : String)
  | potentiallyAvailable (matchingPantryIngredient : String)
  | unavailable
deriving DecidableEq, Repr

def Availability.availabilityState : Availability → String
  | householdItem _ => "householdItem"
  | definitelyAvailable _ => "definitelyAvailable"
  | potentiallyAvailable _ => "potentiallyAvailable"
  | unavailable => "unavailable"

/-- `checkHouseholdItem`: exact membership in the common pantry items list. -/
def checkHouseholdItem (ingredient : String) : Option Availability :=
  (COMMON_PANTRY_ITEMS.find? (fun commonItem => ingredient == commonItem)).map .householdItem

/-- `checkExactMatch`: exact string equality against a pantry entry. -/
def checkExactMatch (pantry : List String) (ingredient : String) : Option Availability :=
  if pantry.any (fun pantryItem => pantryItem == ingredient)
  then some (.definitelyAvailable ingredient) else none

/-- `checkPartialMatch`: substring containment either way against a pantry
entry, preferring a pantry item that contains the ingredient. -/
def checkPartialMatch (pantry : List String) (ingredient : String) : Option Availability :=
  let pantryMatch := pantry.find? (fun pantryItem => jsIncludes pantryItem ingredient)
  let ingredientMatch := pantry.find? (fun pantryItem => jsIncludes ingredient pantryItem)
  (pantryMatch.orElse (fun _ => ingredientMatch)).map .potentiallyAvailable

/-- `checkSynonymMatch`: the source's `for..of` loop over
`Object.entries(INGREDIENT_SYNONYMS)` executes `return match ? {...} : null`
unconditionally in its first iteration, so only the first synonym group is
ever consulted, and the pantry is not consulted at all — the test is whether
the ingredient name contains one of the group's synonyms. -/
def checkSynonymMatch (ingredient : String) : Option Availability :=
  match INGREDIENT_SYNONYMS with
  | [] => none
  | (key, synonyms) :: _ =>
    (synonyms.find? (fun synonym => jsIncludes ingredient synonym)).map
      (fun _ => .potentiallyAvailable key)

/-- `getIngredientAvailability`, after `normalizeIngredient` has been
applied: the four checks in source order, first positive answer wins. -/
def getIngredientAvailabilityNormalized (pantry : List String) (n : String) : Availability :=
  match checkHouseholdItem n with
  | some householdItem => householdItem
  | none =>
  match checkExactMatch pantry n with
  | some exactMatch => exactMatch
  | none =>
  match checkPartialMatch pantry n with
  | some partialMatch => partialMatch
  | none =>
  match checkSynonymMatch n with
  | some synonymMatch => synonymMatch
  | none => .unavailable

/-- `getIngredientAvailability(apiIngredientName)`, reading the pantry from
state and normalizing first. -/
def getIngredientAvailability (sing : String → String) (pantry : List String)
    (apiIngredientName : String) : Availability :=
  getIngredientAvailabilityNormalized pantry (normalizeIngredient sing apiIngredientName)

/-! ## Recipe entities (`RecipeClass.js`)

Field order and names follow the `Recipe` constructor.  Sentinel-valued
fields (`"Unavailable"`, `"-"`, `"N/A"`) are the `none` of the respective
`Option` type. -/

structure Ingredient where
  ingredientText : String
  quantity : Option ℚ
  unit : String
  name : String
  category : String
  availability : Availability
deriving DecidableEq, Repr

structure Recipe where
  title : String
  image : String
  id : ℤ
  isBookmarked : Bool
  mealType : String
  dietaryRestrictions : Option (List String)
  prepTime : Option ℚ
  cuisine : String
  calories : Option ℚ
  servings : Option ℚ
  ingredients : Option (List Ingredient)
  instructions : Option (List String)
  saturatedFat : Option ℚ
  sugar : Option ℚ
  fiber : Option ℚ
  sodium : Option ℚ
  cholesterol : Option ℚ
  iron : Option ℚ
  zinc : Option ℚ
  calcium : Option ℚ
  magnesium : Option ℚ
  protein : Option ℚ
  fats : Option ℚ
  carbs : Option ℚ
  percentProtein : Option ℚ
  percentFats : Option ℚ
  percentCarbs : Option ℚ
  percentDVProtein : Option ℚ
  percentDVFats : Option ℚ
  percentDVCarbs : Option ℚ
  numMissingIngredients : Option ℕ
  origin : String
deriving DecidableEq, Repr

/-! ## Application state (`state.js`, `initializeApp.js`)

The meal plan maps a week key (the Monday day number) to a week object,
which maps each weekday's day number to a day plan.  JS objects become
association lists; `lookupA` is property read (first binding wins) and
`setA` is in-place mutation of the stored value. -/

structure Nutrition where
  calories : Option ℚ
  protein : Option ℚ
  carbs : Option ℚ
  fats : Option ℚ
deriving DecidableEq, Repr

inductive MealSlot where
  | breakfast | lunch | snacks | dinner
deriving DecidableEq, Repr

structure Meals where
  breakfast : List Recipe
  lunch : List Recipe
  snacks : List Recipe
  dinner : List Recipe
deriving DecidableEq, Repr

def Meals.get (m : Meals) : MealSlot → List Recipe
  | .breakfast => m.breakfast
  | .lunch => m.lunch
  | .snacks => m.snacks
  | .dinner => m.dinner

def Meals.set (m : Meals) : MealSlot → List Recipe → Meals
  | .breakfast, l => { m with breakfast := l }
  | .lunch, l => { m with lunch := l }
  | .snacks, l => { m with snacks := l }
  | .dinner, l => { m with dinner := l }

/-- Key iteration order of the `meals` object (insertion order from
`createEmptyMealObj`). -/
def mealSlots : List MealSlot := [.breakfast, .lunch, .snacks, .dinner]

/-- All recipes of a day, in `for..in` iteration order of the `meals` keys. -/
def Meals.all (m : Meals) : List Recipe :=
  m.breakfast ++ m.lunch ++ m.snacks ++ m.dinner

structure DayPlan where
  meals : Meals
  nutrition : Nutrition
deriving DecidableEq, Repr

abbrev WeekPlan := List (ℤ × DayPlan)
abbrev MealPlan := List (ℤ × WeekPlan)

/-- Property read on a JS object modelled as an association list. -/
def lookupA {α : Type} : List (ℤ × α) → ℤ → Option α
  | [], _ => none
  | (k, v) :: rest, key => if k = key then some v else lookupA rest key

/-- Mutation of the value stored under a key (identity when absent). -/
def setA {α : Type} : List (ℤ × α) → ℤ → (α → α) → List (ℤ × α)
  | [], _, _ => []
  | (k, v) :: rest, key, f =>
    (k, if k = key then f v else v) :: setA rest key f

structure AppState where
  pantry : List String
  ingredientSearchResults : List Recipe
  browseSearchResults : List Recipe
  recipeBook : List Recipe
  mealPlan : MealPlan
deriving DecidableEq, Repr

/-! ## Locating recipes (`modelUtils.js`) -/

/-- The `{source, currentDate, currentMeal}` options object.  `currentDate`
and `currentMeal` are only ever supplied together with the `mealPlan`
source (elsewhere they are `null`), so the sum type carries them there. -/
inductive Source where
  | ingredientSearch
  | browseRecipeSearch
  | recipeBook
  | mealPlan (currentDate : ℤ) (currentMeal : MealSlot)
deriving DecidableEq, Repr

/-- `getDayMealPlan`: week key plus the day's plan; `none` when the week or
the day is not resident (the JS code would crash dereferencing
`undefined`). -/
def getDayMealPlan (mp : MealPlan) (dayDateString : ℤ) : Option (ℤ × DayPlan) :=
  match lookupA mp (getMondayOfTheWeek dayDateString) with
  | none => none
  | some week =>
    match lookupA week dayDateString with
    | none => none
    | some dayMealPlan => some (getMondayOfTheWeek dayDateString, dayMealPlan)

/-- `getSourceArray`: the state array backing a browsing source. -/
def getSourceArray (st : AppState) : Source → List Recipe
  | .ingredientSearch => st.ingredientSearchResults
  | .browseRecipeSearch => st.browseSearchResults
  | .recipeBook => st.recipeBook
  | .mealPlan _ _ => []

/-- `getRecipeFromBrowse`: first id match in the source array (`null` when
absent). -/
def getRecipeFromBrowse (st : AppState) (recipeId : ℤ) (source : Source) : Option Recipe :=
  (getSourceArray st source).find? (fun recipe => recipe.id == recipeId)

/-- `getRecipeFromMealPlan`: first id match in the given slot. -/
def getRecipeFromMealPlan (st : AppState) (recipeId : ℤ) (dayDateString : ℤ)
    (mealTime : MealSlot) : Option Recipe :=
  match getDayMealPlan st.mealPlan dayDateString with
  | none => none
  | some (_, dayMealPlan) =>
    (dayMealPlan.meals.get mealTime).find? (fun meal => meal.id == recipeId)

/-- `getRecipe`: dispatch on the source. -/
def getRecipe (st : AppState) (recipeId : ℤ) : Source → Option Recipe
  | .mealPlan currentDate currentMeal =>
    getRecipeFromMealPlan st recipeId currentDate currentMeal
  | source => getRecipeFromBrowse st recipeId source

/-! ## Servings adjustment (`servingsUtils.js`) -/

/-- `calculateUpdatedServings`.  `newServings` is `none` for the JS `null`
default; when supplied it holds the result of the `+newServings` coercion
(`none` for a non-numeric input).  Any `operation` string other than
`"increaseServings"` (including `null`) takes the decrease branch. -/
def calculateUpdatedServings (currentServings : Option ℚ) (operation : Option String)
    (newServings : Option (Option ℚ)) : Option ℚ :=
  match newServings with
  | some v => v
  | none =>
    if operation == some "increaseServings" then jsAddOne currentServings
    else jsSubOne currentServings

/-- `isValidServings`: JS relational comparisons with a non-numeric operand
are `false`, so a non-number passes this check. -/
def isValidServings (servings : Option ℚ) : Bool :=
  match servings with
  | some s => !(s < 1 || s > 50)
  | none => true

/-- `updateIngredientQuantities`: every quantity is multiplied by the
servings ratio. -/
def updateIngredientQuantities (ingredients : List Ingredient)
    (servingsFactor : Option ℚ) : List Ingredient :=
  ingredients.map (fun ingredient =>
    { ingredient with quantity := jsMul ingredient.quantity servingsFactor })

/-- `updateNutrientQuantities`: each entry of `RECIPE_NUTRIENTS` (calories,
saturatedFat, sugar, fiber, sodium, cholesterol, iron, zinc, calcium,
magnesium, protein, carbs, fats) is scaled when finite, and left alone when
it holds a sentinel. -/
def updateNutrientQuantities (recipe : Recipe) (servingsFactor : Option ℚ) : Recipe :=
  { recipe with
    calories := if recipe.calories.isSome then jsMul recipe.calories servingsFactor else recipe.calories
    saturatedFat := if recipe.saturatedFat.isSome then jsMul recipe.saturatedFat servingsFactor else recipe.saturatedFat
    sugar := if recipe.sugar.isSome then jsMul recipe.sugar servingsFactor else recipe.sugar
    fiber := if recipe.fiber.isSome then jsMul recipe.fiber servingsFactor else recipe.fiber
    sodium := if recipe.sodium.isSome then jsMul recipe.sodium servingsFactor else recipe.sodium
    cholesterol := if recipe.cholesterol.isSome then jsMul recipe.cholesterol servingsFactor else recipe.cholesterol
    iron := if recipe.iron.isSome then jsMul recipe.iron servingsFactor else recipe.iron
    zinc := if recipe.zinc.isSome then jsMul recipe.zinc servingsFactor else recipe.zinc
    calcium := if recipe.calcium.isSome then jsMul recipe.calcium servingsFactor else recipe.calcium
    magnesium := if recipe.magnesium.isSome then jsMul recipe.magnesium servingsFactor else recipe.magnesium
    protein := if recipe.protein.isSome then jsMul recipe.protein servingsFactor else recipe.protein
    carbs := if recipe.carbs.isSome then jsMul recipe.carbs servingsFactor else recipe.carbs
    fats := if recipe.fats.isSome then jsMul recipe.fats servingsFactor else recipe.fats }

/-- `updatePercentDV`: the three daily-value percentages recomputed from the
(already rescaled) protein/fats/carbs. -/
def updatePercentDV (recipe : Recipe) : Recipe :=
  { recipe with
    percentDVProtein := jsMul (jsDiv recipe.protein (some RECOMMENDED_PROTEIN_DV)) (some 100)
    percentDVFats := jsMul (jsDiv recipe.fats (some RECOMMENDED_FATS_DV)) (some 100)
    percentDVCarbs := jsMul (jsDiv recipe.carbs (some RECOMMENDED_CARBS_DV)) (some 100) }

/-- The in-place mutations of `adjustServings` on the located recipe object,
in source order: ingredient quantities, nutrient quantities, daily-value
percentages, then the servings count itself.  Defined only for a recipe
whose `ingredients` field holds an actual array (`ingredients.forEach`
throws otherwise). -/
def adjustedRecipe (recipe : Recipe) (ingredients : List Ingredient)
    (updatedServings : Option ℚ) : Recipe :=
  let servingsFactor := jsDiv updatedServings recipe.servings
  let r1 := { recipe with
    ingredients := some (updateIngredientQuantities ingredients servingsFactor) }
  let r2 := updatePercentDV (updateNutrientQuantities r1 servingsFactor)
  { r2 with servings := updatedServings }

/-- Replace the first recipe with the given id (the object that
`find`/`findIndex` located and that the code mutates in place). -/
def replaceFirstById (l : List Recipe) (recipeId : ℤ) (r' : Recipe) : List Recipe :=
  match l with
  | [] => []
  | r :: rest =>
    if r.id == recipeId then r' :: rest else r :: replaceFirstById rest recipeId r'

/-- `updateProperties` (servingsUtils.js): copy servings, a deep copy of the
ingredients, and the thirteen `RECIPE_NUTRIENTS` fields — and nothing else
(in particular not the daily-value percentages). -/
def updateProperties (recipe updatedRecipe : Recipe) : Recipe :=
  { recipe with
    servings := updatedRecipe.servings
    ingredients := updatedRecipe.ingredients
    calories := updatedRecipe.calories
    saturatedFat := updatedRecipe.saturatedFat
    sugar := updatedRecipe.sugar
    fiber := updatedRecipe.fiber
    sodium := updatedRecipe.sodium
    cholesterol := updatedRecipe.cholesterol
    iron := updatedRecipe.iron
    zinc := updatedRecipe.zinc
    calcium := updatedRecipe.calcium
    magnesium := updatedRecipe.magnesium
    protein := updatedRecipe.protein
    carbs := updatedRecipe.carbs
    fats := updatedRecipe.fats }

/-- `synchronizeRecipeInstances`: broadcast the updated recipe's properties
onto every same-id entity in the three browsing collections. -/
def synchronizeRecipeInstances (st : AppState) (updatedRecipe : Recipe) : AppState :=
  let recipeId := updatedRecipe.id
  { st with
    ingredientSearchResults := st.ingredientSearchResults.map (fun recipe =>
      if recipe.id == recipeId then updateProperties recipe updatedRecipe else recipe)
    browseSearchResults := st.browseSearchResults.map (fun recipe =>
      if recipe.id == recipeId then updateProperties recipe updatedRecipe else recipe)
    recipeBook := st.recipeBook.map (fun recipe =>
      if recipe.id == recipeId then updateProperties recipe updatedRecipe else recipe) }

/-- Write the mutated recipe object back into the location `getRecipe` found
it at (in JS this is one and the same object). -/
def writeBackRecipe (st : AppState) (recipeId : ℤ) (r' : Recipe) : Source → AppState
  | .ingredientSearch =>
    { st with ingredientSearchResults := replaceFirstById st.ingredientSearchResults recipeId r' }
  | .browseRecipeSearch =>
    { st with browseSearchResults := replaceFirstById st.browseSearchResults recipeId r' }
  | .recipeBook =>
    { st with recipeBook := replaceFirstById st.recipeBook recipeId r' }
  | .mealPlan currentDate currentMeal =>
    { st with
      mealPlan := setA st.mealPlan (getMondayOfTheWeek currentDate) (fun week =>
        setA week currentDate (fun dayPlan =>
          { dayPlan with
            meals := dayPlan.meals.set currentMeal
              (replaceFirstById (dayPlan.meals.get currentMeal) recipeId r') })) }

/-- `adjustServings`: compute the new serving count, silently bail out when
it is an out-of-range number, otherwise rescale the located recipe in place
and — for browsing sources only — broadcast to the other collections.
`none` marks a thrown `TypeError` (no recipe found, or a sentinel
`ingredients` field). -/
def adjustServings (st : AppState) (recipeId : ℤ) (operation : Option String)
    (source : Source) (newServings : Option (Option ℚ)) : Option AppState :=
  match getRecipe st recipeId source with
  | none => none
  | some recipe =>
    let updatedServings := calculateUpdatedServings recipe.servings operation newServings
    if !isValidServings updatedServings then some st
    else
      match recipe.ingredients with
      | none => none
      | some ingredients =>
        let r' := adjustedRecipe recipe ingredients updatedServings
        let st1 := writeBackRecipe st recipeId r' source
        match source with
        | .mealPlan _ _ => some st1
        | _ => some (synchronizeRecipeInstances st1 r')

/-! ## Meal-plan engine (`mealPlanner.js`) -/

/-- `deepCopy` (sharedUtils.js) is a JSON round trip of plain data: a fresh
object carrying the same value, which in a functional embedding is the value
itself. -/
def deepCopy {α : Type} (x : α) : α := x

/-- Mutation through the `dayMealPlan` reference obtained from
`getDayMealPlan`: the entry at the day's week key and day key. -/
def updateDayPlan (mp : MealPlan) (dayDateString : ℤ) (f : DayPlan → DayPlan) : MealPlan :=
  setA mp (getMondayOfTheWeek dayDateString) (fun week => setA week dayDateString f)

def zeroNutrition : Nutrition := { calories := some 0, protein := some 0, carbs := some 0, fats := some 0 }

/-- One step of the accumulation loop in `updateNutritionForDay`. -/
def addRecipeNutrition (n : Nutrition) (recipe : Recipe) : Nutrition :=
  { calories := jsAdd n.calories recipe.calories
    protein := jsAdd n.protein recipe.protein
    carbs := jsAdd n.carbs recipe.carbs
    fats := jsAdd n.fats recipe.fats }

/-- The body of `updateNutritionForDay` on the day's plan: reset the
nutrition object to zeros, then accumulate every recipe of every slot. -/
def resetAndSumDayNutrition (dayPlan : DayPlan) : DayPlan :=
  { dayPlan with nutrition := dayPlan.meals.all.foldl addRecipeNutrition zeroNutrition }

/-- `updateNutritionForDay(dayDateString)`: recompute one day's totals in
place (`none` when the day is not resident and the destructuring throws). -/
def updateNutritionForDay (mp : MealPlan) (dayDateString : ℤ) : Option MealPlan :=
  match getDayMealPlan mp dayDateString with
  | none => none
  | some _ => some (updateDayPlan mp dayDateString resetAndSumDayNutrition)

/-- The `for (const day in weekPlan)` loop of `updateNutritionForWeek`. -/
def updateNutritionForDays : MealPlan → List ℤ → Option MealPlan
  | mp, [] => some mp
  | mp, day :: rest =>
    match updateNutritionForDay mp day with
    | none => none
    | some mp1 => updateNutritionForDays mp1 rest

/-- `updateNutritionForWeek(mondayOfWeekDateString)`: iterate the week
object's own day keys.  A `for..in` over `undefined` performs no iterations,
so a missing week is a no-op rather than a crash. -/
def updateNutritionForWeek (mp : MealPlan) (mondayOfWeekDateString : ℤ) : Option MealPlan :=
  match lookupA mp mondayOfWeekDateString with
  | none => some mp
  | some weekPlan => updateNutritionForDays mp (weekPlan.map Prod.fst)

/-- The user inputs of `addRecipeToMealPlan`.  `numServings` uses the
`newServings` convention of `adjustServings` (see
`calculateUpdatedServings`). -/
structure UserInputs where
  date : ℤ
  meal : MealSlot
  operation : String
  numServings : Option (Option ℚ)
deriving DecidableEq, Repr

/-- The in-place slot mutation of `deleteRecipeFromMealPlan`: `findIndex`
the id (`-1` when absent) and `splice` one element out at that index. -/
def deleteFromDayPlan (recipeId : ℤ) (mealTime : MealSlot) (dayPlan : DayPlan) : DayPlan :=
  let slot := dayPlan.meals.get mealTime
  let recipeToDeleteIndex := jsFindIndex (fun meal => meal.id == recipeId) slot
  { dayPlan with meals := dayPlan.meals.set mealTime (jsSpliceRemoveOne slot recipeToDeleteIndex) }

/-- The in-place slot mutation of `addRecipeToMealPlan`: clear the slot
under `"replace"`, then push the copy. -/
def addToDayPlan (recipeCopy : Recipe) (meal : MealSlot) (operation : String)
    (dayPlan : DayPlan) : DayPlan :=
  let meals0 := if operation == "replace" then dayPlan.meals.set meal [] else dayPlan.meals
  { dayPlan with meals := meals0.set meal (meals0.get meal ++ [recipeCopy]) }

/-- `deleteRecipeFromMealPlan`: `findIndex` the id in the slot (`-1` when
absent) and `splice` one element out at that index, then recompute the
week's nutrition and persist. -/
def deleteRecipeFromMealPlan (st : AppState) (recipeId : ℤ) (dayDateString : ℤ)
    (mealTime : MealSlot) : Option AppState :=
  match getDayMealPlan st.mealPlan dayDateString with
  | none => none
  | some (weekKey, _) =>
  let mp1 := updateDayPlan st.mealPlan dayDateString (deleteFromDayPlan recipeId mealTime)
  match updateNutritionForWeek mp1 weekKey with
  | none => none
  | some mp2 => some { st with mealPlan := mp2 }

/-- `addRecipeToMealPlan`: resolve the source recipe, deep-copy it into the
target slot (clearing the slot first under `"replace"`), adjust the copy's
servings unless it is a custom meal entry, recompute the target week's
nutrition, persist, and — when the source was the meal plan (a move) —
delete the original instance afterwards. -/
def addRecipeToMealPlan (st : AppState) (recipeId : ℤ) (userInputs : UserInputs)
    (options : Source) : Option AppState :=
  match getDayMealPlan st.mealPlan userInputs.date with
  | none => none
  | some (weekKey, _) =>
  match getRecipe st recipeId options with
  | none => none
  | some recipe =>
  let recipeCopy := deepCopy recipe
  let mp1 := updateDayPlan st.mealPlan userInputs.date
    (addToDayPlan recipeCopy userInputs.meal userInputs.operation)
  let st1 := { st with mealPlan := mp1 }
  match (if recipeCopy.origin == "customMealEntry" then some st1
         else adjustServings st1 recipeCopy.id none
           (.mealPlan userInputs.date userInputs.meal) userInputs.numServings) with
  | none => none
  | some st2 =>
  match updateNutritionForWeek st2.mealPlan weekKey with
  | none => none
  | some mp3 =>
  let st3 := { st2 with mealPlan := mp3 }
  match options with
  | .mealPlan currentDate currentMeal => deleteRecipeFromMealPlan st3 recipeId currentDate currentMeal
  | _ => some st3

/-- User inputs of `createCustomMealEntry`; the four numeric fields hold the
result of the `+` coercion applied in `createCustomRecipeObject`. -/
structure CustomEntryInputs where
  date : ℤ
  meal : MealSlot
  mealName : String
  mealCalories : Option ℚ
  mealProtein : Option ℚ
  mealCarbs : Option ℚ
  mealFats : Option ℚ
deriving DecidableEq, Repr

/-- `createCustomRecipeObject`: a `Recipe` whose only populated details are
the title, a freshly generated id (passed explicitly here, as the source
derives it from the clock and a random number), the calories and the three
macros; every other field holds the `"Unavailable"` sentinel, and
`numMissingIngredients` holds `"N/A"`. -/
def createCustomRecipeObject (inputs : CustomEntryInputs) (freshId : ℤ) : Recipe :=
  { title := inputs.mealName
    image := "images/custom-recipe-image.avif"
    id := freshId
    isBookmarked := false
    mealType := "Unavailable"
    dietaryRestrictions := none
    prepTime := none
    cuisine := "Unavailable"
    calories := inputs.mealCalories
    servings := none
    ingredients := none
    instructions := none
    saturatedFat := none
    sugar := none
    fiber := none
    sodium := none
    cholesterol := none
    iron := none
    zinc := none
    calcium := none
    magnesium := none
    protein := inputs.mealProtein
    fats := inputs.mealFats
    carbs := inputs.mealCarbs
    percentProtein := none
    percentFats := none
    percentCarbs := none
    percentDVProtein := none
    percentDVFats := none
    percentDVCarbs := none
    numMissingIngredients := none
    origin := "customMealEntry" }

/-- `createCustomMealEntry`: push the custom entry into the target slot,
recompute the week's nutrition, persist. -/
def createCustomMealEntry (st : AppState) (inputs : CustomEntryInputs)
    (freshId : ℤ) : Option AppState :=
  match getDayMealPlan st.mealPlan inputs.date with
  | none => none
  | some (weekKey, _) =>
  let customEntryRecipe := createCustomRecipeObject inputs freshId
  let mp1 := updateDayPlan st.mealPlan inputs.date (fun dayPlan =>
    { dayPlan with
      meals := dayPlan.meals.set inputs.meal (dayPlan.meals.get inputs.meal ++ [customEntryRecipe]) })
  match updateNutritionForWeek mp1 weekKey with
  | none => none
  | some mp2 => some { st with mealPlan := mp2 }

/-- `mealsInMealSlot`: ids of the recipes in one slot (`none` when the week
or day is not resident and the chained property reads throw). -/
def mealsInMealSlot (st : AppState) (dateString : ℤ) (meal : MealSlot) : Option (List ℤ) :=
  let mondayOfWeek := getMondayOfTheWeek dateString
  match lookupA st.mealPlan mondayOfWeek with
  | none => none
  | some week =>
  match lookupA week dateString with
  | none => none
  | some dayPlan => some ((dayPlan.meals.get meal).map Recipe.id)

/-! ## Recipe book (`recipeBook.js`) -/

/-- `addRecipeToRecipeBookById`: deep-copy the located recipe into the book.
The controller invokes this only after `getBookmarkStatus` has successfully
dereferenced the same lookup, so the recipe exists; `none` covers the
otherwise-unreachable null lookup. -/
def addRecipeToRecipeBookById (st : AppState) (recipeId : ℤ) (options : Source) : Option AppState :=
  match getRecipe st recipeId options with
  | none => none
  | some recipe => some { st with recipeBook := st.recipeBook ++ [deepCopy recipe] }

/-- `removeRecipeFromBook`: `findIndex` (`-1` when the id is absent) and
`splice` one entry out at that index. -/
def removeRecipeFromBook (st : AppState) (recipeId : ℤ) : AppState :=
  let index := jsFindIndex (fun recipe => recipe.id == recipeId) st.recipeBook
  { st with recipeBook := jsSpliceRemoveOne st.recipeBook index }

/-! ## Bookmarks (`bookmarkUtils.js`, `initController.js`) -/

def Meals.mapRecipes (m : Meals) (f : Recipe → Recipe) : Meals :=
  { breakfast := m.breakfast.map f
    lunch := m.lunch.map f
    snacks := m.snacks.map f
    dinner := m.dinner.map f }

/-- `getBookmarkStatus`. -/
def getBookmarkStatus (st : AppState) (recipeId : ℤ) (options : Source) : Option Bool :=
  match getRecipe st recipeId options with
  | none => none
  | some recipe => some recipe.isBookmarked

/-- `updateBookmarkStatus`: for a meal-plan source, set the flag on every id
match in that one slot; for a browsing source, set it on the located
entity. -/
def updateBookmarkStatus (st : AppState) (recipeId : ℤ) (newBookmarkStatus : Bool) :
    Source → Option AppState
  | .mealPlan currentDate currentMeal =>
    match getDayMealPlan st.mealPlan currentDate with
    | none => none
    | some _ => some { st with
        mealPlan := updateDayPlan st.mealPlan currentDate (fun dayPlan =>
          let flagged := (dayPlan.meals.get currentMeal).map (fun meal =>
            if meal.id == recipeId then { meal with isBookmarked := newBookmarkStatus } else meal)
          { dayPlan with meals := dayPlan.meals.set currentMeal flagged }) }
  | source =>
    match getRecipeFromBrowse st recipeId source with
    | none => none
    | some recipe =>
      some (writeBackRecipe st recipeId { recipe with isBookmarked := newBookmarkStatus } source)

/-- `syncMealPlannerBookmarkStatus`: set the flag on every id match in every
slot of every day of every week. -/
def syncMealPlannerBookmarkStatus (mp : MealPlan) (recipeId : ℤ)
    (newBookmarkStatus : Bool) : MealPlan :=
  mp.map (fun weekEntry => (weekEntry.1, weekEntry.2.map (fun dayEntry =>
    (dayEntry.1, { dayEntry.2 with
      meals := dayEntry.2.meals.mapRecipes (fun meal =>
        if meal.id == recipeId then { meal with isBookmarked := newBookmarkStatus }
        else meal) }))))

/-- `synchronizeBookmarkStatus`: broadcast the flag to every id match in the
two search-result arrays, the recipe book, and the whole meal plan. -/
def synchronizeBookmarkStatus (st : AppState) (recipeId : ℤ)
    (newBookmarkStatus : Bool) : AppState :=
  let flag := fun (recipe : Recipe) =>
    if recipe.id == recipeId then { recipe with isBookmarked := newBookmarkStatus } else recipe
  { st with
    ingredientSearchResults := st.ingredientSearchResults.map flag
    browseSearchResults := st.browseSearchResults.map flag
    recipeBook := st.recipeBook.map flag
    mealPlan := syncMealPlannerBookmarkStatus st.mealPlan recipeId newBookmarkStatus }

/-- `toggleBookmarkStatus` (initController.js): flip the flag on the located
recipe, then add the full entity to the recipe book or remove it. -/
def toggleBookmarkStatus (st : AppState) (recipeId : ℤ) (options : Source) :
    Option (Bool × AppState) :=
  match getBookmarkStatus st recipeId options with
  | none => none
  | some isCurrentlyBookmarked =>
  let isNowBookmarked := !isCurrentlyBookmarked
  match updateBookmarkStatus st recipeId isNowBookmarked options with
  | none => none
  | some st1 =>
  if isNowBookmarked then
    match addRecipeToRecipeBookById st1 recipeId options with
    | none => none
    | some st2 => some (isNowBookmarked, st2)
  else some (isNowBookmarked, removeRecipeFromBook st1 recipeId)

/-- `controlBookmarks` (initController.js), minus the UI re-rendering: toggle
in the model, then synchronize everywhere and persist the meal plan. -/
def controlBookmarks (st : AppState) (recipeId : ℤ) (options : Source) :
    Option (Bool × AppState) :=
  match toggleBookmarkStatus st recipeId options with
  | none => none
  | some (isNowBookmarked, st1) =>
    some (isNowBookmarked, synchronizeBookmarkStatus st1 recipeId isNowBookmarked)

/-! ## Adding to the plan from the modals (`addRecipeController.js`) -/

/-- `isRecipeAlreadyInMealSlot`: the target slot already holds the id and the
operation is not `"replace"`. -/
def isRecipeAlreadyInMealSlot (st : AppState) (recipeId : ℤ) (dateToBePlaced : ℤ)
    (mealToBePlaced : MealSlot) (operation : String) : Option Bool :=
  match mealsInMealSlot st dateToBePlaced mealToBePlaced with
  | none => none
  | some currentRecipes => some (currentRecipes.contains recipeId && !(operation == "replace"))

inductive AddPlanOutcome where
  | rejectedDuplicate
  | added
deriving DecidableEq, Repr

/-- `controlAddRecipeToPlan`, minus modal/render calls: reject a duplicate
add into the same slot before touching any state, otherwise delegate to
`addRecipeToMealPlan`. -/
def controlAddRecipeToPlan (st : AppState) (recipeId : ℤ) (userInputs : UserInputs)
    (options : Source) : Option (AddPlanOutcome × AppState) :=
  match isRecipeAlreadyInMealSlot st recipeId userInputs.date userInputs.meal userInputs.operation with
  | none => none
  | some true => some (.rejectedDuplicate, st)
  | some false =>
    match addRecipeToMealPlan st recipeId userInputs options with
    | none => none
    | some st1 => some (.added, st1)

/-! ## Title casing (`sharedUtils.js`)

`toTitleCase` lower-cases, then upper-cases the first character of every
`\b\w+` word except `"and"`/`"with"`, then upper-cases any lower-case letter
following a hyphen. -/

def isWordChar (c : Char) : Bool := c.isAlphanum || c == '_'

/-- Word-start pass: the flag records whether the previous character was a
word character (so the current one starts a word when it is not set). -/
def titleCaseGo : Bool → List Char → List Char
  | _, [] => []
  | prevWord, c :: cs =>
    if isWordChar c && !prevWord then
      let w := String.mk ((c :: cs).takeWhile isWordChar)
      (if w == "and" || w == "with" then c else c.toUpper) :: titleCaseGo true cs
    else c :: titleCaseGo (isWordChar c) cs

/-- Hyphen pass: globally, a hyphen followed by a lower-case letter has that
letter upper-cased. -/
def hyphenUpper : List Char → List Char
  | [] => []
  | '-' :: c :: cs => if c.isLower then '-' :: c.toUpper :: hyphenUpper cs
                      else '-' :: hyphenUpper (c :: cs)
  | c :: cs => c :: hyphenUpper cs

def toTitleCase (str : String) : String :=
  String.mk (hyphenUpper (titleCaseGo false (str.toList.map Char.toLower)))

/-! ## Recipe detail retrieval (`loadRecipeDetails.js`)

The raw API payload shapes, restricted to the properties the code reads.
`Option` marks a property that can be absent/undefined (or, for numeric
properties, non-finite — `Number.isFinite` is `Option.isSome` here). -/

structure RawNutrient where
  name : String
  amount : Option ℚ
deriving DecidableEq, Repr

structure CaloricBreakdown where
  percentProtein : Option ℚ
  percentFat : Option ℚ
  percentCarbs : Option ℚ
deriving DecidableEq, Repr

structure RawNutrition where
  nutrients : List RawNutrient
  caloricBreakdown : CaloricBreakdown
deriving DecidableEq, Repr

structure RawInstructionBlock where
  steps : Option (List String)
deriving DecidableEq, Repr

structure RawMeasure where
  amount : Option ℚ
  unitShort : String
deriving DecidableEq, Repr

structure RawIngredient where
  original : String
  usMeasure : RawMeasure
  name : String
  aisle : String
deriving DecidableEq, Repr

structure RawRecipe where
  title : String
  id : Option ℤ
  servings : Option ℚ
  analyzedInstructions : Option (List RawInstructionBlock)
  extendedIngredients : Option (List RawIngredient)
  nutrition : Option RawNutrition
  image : Option String
  dishTypes : List String
  diets : List String
  readyInMinutes : Option ℚ
  cuisines : List String
deriving DecidableEq, Repr

/-- `isValidRecipe`: the acceptance check run on every fetched recipe.  Note
that `recipe.analyzedInstructions?.[0]?.steps` and
`recipe.extendedIngredients` are truthiness tests on the *presence* of those
arrays — an empty array is truthy in JS, so zero steps or zero ingredients
still pass. -/
def isValidRecipe (recipe : RawRecipe) : Bool :=
  !(trimChars recipe.title).isEmpty &&
  recipe.id.isSome &&
  recipe.servings.isSome &&
  (match recipe.analyzedInstructions with
   | some (firstBlock :: _) => firstBlock.steps.isSome
   | _ => false) &&
  recipe.extendedIngredients.isSome &&
  recipe.nutrition.isSome &&
  (match recipe.nutrition with
   | some n =>
     (match n.nutrients.find? (fun obj => obj.name == "Protein") with
      | some obj => obj.amount.isSome | none => false) &&
     (match n.nutrients.find? (fun obj => obj.name == "Fat") with
      | some obj => obj.amount.isSome | none => false) &&
     (match n.nutrients.find? (fun obj => obj.name == "Carbohydrates") with
      | some obj => obj.amount.isSome | none => false) &&
     n.caloricBreakdown.percentProtein.isSome &&
     n.caloricBreakdown.percentFat.isSome &&
     n.caloricBreakdown.percentCarbs.isSome
   | none => false)

/-- `getNutrientValue`: the named nutrient's amount, or the `"-"` sentinel
(our `none`) when missing or non-finite. -/
def getNutrientValue (recipe : RawRecipe) (nutrientName : String) : Option ℚ :=
  match recipe.nutrition with
  | none => none
  | some n =>
    match n.nutrients.find? (fun obj => obj.name == nutrientName) with
    | none => none
    | some nutrient => nutrient.amount

/-- `calculateMissingIngredients`: how many of the ingredients resolve to the
`unavailable` state against the current pantry. -/
def calculateMissingIngredients (sing : String → String) (pantry : List String)
    (ingredients : List Ingredient) : ℕ :=
  (ingredients.filter (fun ing =>
    (getIngredientAvailability sing pantry ing.name).availabilityState == "unavailable")).length

/-- `createRecipeObject`: convert a raw (already validated) API recipe into a
`Recipe` entity.  `isValidRecipe` has guaranteed the id, the servings, the
ingredient list, the nutrition object and the three macro amounts, so the
fallbacks taken here for those fields are never exercised on the call
path. -/
def createRecipeObject (sing : String → String) (st : AppState) (recipe : RawRecipe)
    (mode : String) : Recipe :=
  let isBookmarked := (st.recipeBook.map Recipe.id).contains (recipe.id.getD 0)
  let ingredients := (recipe.extendedIngredients.getD []).map (fun ing =>
    { ingredientText := ing.original
      quantity := ing.usMeasure.amount
      unit := ing.usMeasure.unitShort
      name := ing.name
      category := ing.aisle
      availability := getIngredientAvailability sing st.pantry ing.name : Ingredient })
  let instructions : List String :=
    match recipe.analyzedInstructions with
    | some (firstBlock :: _) => firstBlock.steps.getD []
    | _ => []
  let protein := getNutrientValue recipe "Protein"
  let fats := getNutrientValue recipe "Fat"
  let carbs := getNutrientValue recipe "Carbohydrates"
  let missingIngredientsCount : Option ℕ :=
    if mode == "ingredientSearch" then some (calculateMissingIngredients sing st.pantry ingredients)
    else none
  { title := toTitleCase recipe.title
    image := match recipe.image with
             | some s => if s == "" then "images/custom-recipe-image.avif" else s
             | none => "images/custom-recipe-image.avif"
    id := recipe.id.getD 0
    isBookmarked := isBookmarked
    mealType := match recipe.dishTypes.head? with
                | some s => if s == "" then "Unavailable" else s
                | none => "Unavailable"
    dietaryRestrictions := some recipe.diets
    prepTime := match recipe.readyInMinutes with
                | some t => if t = 0 then none else some t
                | none => none
    cuisine := match recipe.cuisines.head? with
               | some s => if s == "" then "Unavailable" else s
               | none => "Unavailable"
    calories := getNutrientValue recipe "Calories"
    servings := recipe.servings
    ingredients := some ingredients
    instructions := some instructions
    saturatedFat := getNutrientValue recipe "Saturated Fat"
    sugar := getNutrientValue recipe "Sugar"
    fiber := getNutrientValue recipe "Fiber"
    sodium := getNutrientValue recipe "Sodium"
    cholesterol := getNutrientValue recipe "Cholesterol"
    iron := getNutrientValue recipe "Iron"
    zinc := getNutrientValue recipe "Zinc"
    calcium := getNutrientValue recipe "Calcium"
    magnesium := getNutrientValue recipe "Magnesium"
    protein := protein
    fats := fats
    carbs := carbs
    percentProtein := match recipe.nutrition with
                      | some n => n.caloricBreakdown.percentProtein
                      | none => none
    percentFats := match recipe.nutrition with
                   | some n => n.caloricBreakdown.percentFat
                   | none => none
    percentCarbs := match recipe.nutrition with
                    | some n => n.caloricBreakdown.percentCarbs
                    | none => none
    percentDVProtein := jsMul (jsDiv protein (some RECOMMENDED_PROTEIN_DV)) (some 100)
    percentDVFats := jsMul (jsDiv fats (some RECOMMENDED_FATS_DV)) (some 100)
    percentDVCarbs := jsMul (jsDiv carbs (some RECOMMENDED_CARBS_DV)) (some 100)
    numMissingIngredients := missingIngredientsCount
    origin := "app" }

/-- `getOrCreateRecipeObject`: reuse and refresh a same-id recipe-book copy
(recomputing availability, and the missing count in ingredient-search mode),
or convert the raw recipe afresh.  `none` marks the `forEach` throw on a
book entry whose `ingredients` field holds a sentinel. -/
def getOrCreateRecipeObject (sing : String → String) (st : AppState) (recipe : RawRecipe)
    (mode : String) : Option Recipe :=
  match st.recipeBook.find? (fun meal => some meal.id == recipe.id) with
  | some existingRecipe =>
    match existingRecipe.ingredients with
    | none => none
    | some ings =>
      let ings' := ings.map (fun ing =>
        { ing with availability := getIngredientAvailability sing st.pantry ing.name })
      let recipeObj := { existingRecipe with ingredients := some ings' }
      some (if mode == "ingredientSearch"
            then { recipeObj with
                     numMissingIngredients := some (calculateMissingIngredients sing st.pantry ings') }
            else recipeObj)
  | none => some (createRecipeObject sing st recipe mode)

/-- The sort key for ingredient-search results; every recipe placed in that
array carries a numeric `numMissingIngredients` (the `"N/A"` sentinel only
occurs in browse mode, which never sorts). -/
def numMissingKey (r : Recipe) : ℕ := r.numMissingIngredients.getD 0

/-- Stable insertion preserving the relative order of equal keys, mirroring
the (stable) JS `Array.prototype.sort` with comparator
`a.numMissingIngredients - b.numMissingIngredients`. -/
def insertByNumMissing (x : Recipe) : List Recipe → List Recipe
  | [] => [x]
  | y :: ys => if numMissingKey y ≤ numMissingKey x then y :: insertByNumMissing x ys
               else x :: y :: ys

def sortByNumMissing (l : List Recipe) : List Recipe :=
  l.foldl (fun acc x => insertByNumMissing x acc) []

/-- `populateSearchResults`: push into the mode's results array; ingredient
searches additionally sort ascending by missing-ingredient count. -/
def populateSearchResults (st : AppState) (recipeObj : Recipe) (mode : String) : AppState :=
  if mode == "ingredientSearch" then
    { st with ingredientSearchResults := sortByNumMissing (st.ingredientSearchResults ++ [recipeObj]) }
  else
    { st with browseSearchResults := st.browseSearchResults ++ [recipeObj] }

inductive LoadOutcome where
  | noResults
  | ok
deriving DecidableEq, Repr

/-- The `validRecipes.forEach` loop of `loadRecipeDetails`. -/
def loadValidRecipes (sing : String → String) : AppState → List RawRecipe → String → Option AppState
  | st, [], _ => some st
  | st, recipe :: rest, mode =>
    match getOrCreateRecipeObject sing st recipe mode with
    | none => none
    | some recipeObj => loadValidRecipes sing (populateSearchResults st recipeObj mode) rest mode

/-- `loadRecipeDetails`, from the point where the bulk-details response has
been parsed (the fetch itself, response-status errors and the timeout race
live outside the model): drop invalid recipes; when none survive, hand the
caller `{ noResults: true }` and leave the state alone; otherwise convert
and place every survivor. -/
def loadRecipeDetails (sing : String → String) (st : AppState) (data : List RawRecipe)
    (mode : String) : Option (LoadOutcome × AppState) :=
  let validRecipes := data.filter isValidRecipe
  if validRecipes.length = 0 then some (.noResults, st)
  else
    match loadValidRecipes sing st validRecipes mode with
    | none => none
    | some st' => some (.ok, st')

/-! ## Derived definitions used by the theorems -/

/-- Every resident day key belongs to the week it is stored under — the
shape `initializeMealPlan` establishes and every operation preserves. -/
abbrev WellFormedPlan (mp : MealPlan) : Prop :=
  ∀ weekEntry ∈ mp, ∀ d ∈ weekEntry.2.map Prod.fst, getMondayOfTheWeek d = weekEntry.1

/-- The accumulated effect of recomputing the nutrition of the days in `K`
within one week object. -/
def recompFlag (K : List ℤ) (week : WeekPlan) : WeekPlan :=
  week.map (fun e => (e.1, if e.1 ∈ K then resetAndSumDayNutrition e.2 else e.2))

/-- The first curated synonym group — the only one the source's synonym loop
ever examines. -/
def firstSynonymGroup : String × List String := INGREDIENT_SYNONYMS.headD ("", [])

/-- Modelled from the spec: the availability-resolution procedure exactly as
claim C7 words it, for comparison with `getIngredientAvailabilityNormalized`.
Its rule (4) checks membership of the ingredient in *any* synonym group in
which some synonym is a substring match against pantry contents. -/
def specC7AvailabilityState (pantry : List String) (n : String) : String :=
  if n ∈ COMMON_PANTRY_ITEMS then "householdItem"
  else if n ∈ pantry then "definitelyAvailable"
  else if pantry.any (fun p => jsIncludes p n || jsIncludes n p) then "potentiallyAvailable"
  else if INGREDIENT_SYNONYMS.any (fun g =>
    g.2.contains n && g.2.any (fun s => pantry.any (fun p => jsIncludes p s || jsIncludes s p)))
  then "potentiallyAvailable"
  else "unavailable"

/-- Modelled from the spec: claim C6's acceptance condition as worded — it
demands at least one instruction step and at least one ingredient (and a
non-empty title). -/
def specC6Valid (recipe : RawRecipe) : Bool :=
  !recipe.title.toList.isEmpty &&
  recipe.id.isSome &&
  recipe.servings.isSome &&
  (match recipe.analyzedInstructions with
   | some (firstBlock :: _) => !(firstBlock.steps.getD []).isEmpty
   | _ => false) &&
  !(recipe.extendedIngredients.getD []).isEmpty &&
  (match recipe.nutrition with
   | some n =>
     (match n.nutrients.find? (fun obj => obj.name == "Protein") with
      | some obj => obj.amount.isSome | none => false) &&
     (match n.nutrients.find? (fun obj => obj.name == "Fat") with
      | some obj => obj.amount.isSome | none => false) &&
     (match n.nutrients.find? (fun obj => obj.name == "Carbohydrates") with
      | some obj => obj.amount.isSome | none => false) &&
     n.caloricBreakdown.percentProtein.isSome &&
     n.caloricBreakdown.percentFat.isSome &&
     n.caloricBreakdown.percentCarbs.isSome
   | none => false)

/-- The corrected acceptance condition: the instruction requirement is the
presence of the first instruction block's `steps` array and the ingredient
requirement is the presence of the `extendedIngredients` array — both may be
empty. -/
def C6Presence (recipe : RawRecipe) : Prop :=
  trimChars recipe.title ≠ [] ∧ recipe.id ≠ none ∧ recipe.servings ≠ none ∧
  (∃ firstBlock rest steps, recipe.analyzedInstructions = some (firstBlock :: rest) ∧
    firstBlock.steps = some steps) ∧
  (∃ ings, recipe.extendedIngredients = some ings) ∧
  ∃ n, recipe.nutrition = some n ∧
    (∃ obj, n.nutrients.find? (fun o => o.name == "Protein") = some obj ∧ obj.amount ≠ none) ∧
    (∃ obj, n.nutrients.find? (fun o => o.name == "Fat") = some obj ∧ obj.amount ≠ none) ∧
    (∃ obj, n.nutrients.find? (fun o => o.name == "Carbohydrates") = some obj ∧
      obj.amount ≠ none) ∧
    n.caloricBreakdown.percentProtein ≠ none ∧ n.caloricBreakdown.percentFat ≠ none ∧
    n.caloricBreakdown.percentCarbs ≠ none

/-- A raw API recipe with an empty steps array and an empty ingredient
array but every other datum present. -/
def c6Raw : RawRecipe :=
  { title := "Mystery Soup", id := some 7, servings := some 2,
    analyzedInstructions := some [{ steps := some [] }],
    extendedIngredients := some [],
    nutrition := some
      { nutrients := [{ name := "Protein", amount := some 10 },
                      { name := "Fat", amount := some 5 },
                      { name := "Carbohydrates", amount := some 20 }],
        caloricBreakdown := { percentProtein := some 30, percentFat := some 20,
                              percentCarbs := some 50 } },
    image := some "img", dishTypes := [], diets := [], readyInMinutes := some 10,
    cuisines := [] }

/-! ## Concrete fixtures used by witnesses and counterexamples

Day number `4` is a Monday of the epoch calendar (`getMondayOfTheWeek 4 = 4`),
so `[(4, [(4, _), (5, _)])]` is a well-formed one-week plan fragment. -/

def sampleIngredient : Ingredient :=
  { ingredientText := "1 cup rice", quantity := some 2, unit := "cup", name := "rice",
    category := "Pasta and Rice", availability := .unavailable }

def sampleRecipe (rid : ℤ) (servings : ℚ) : Recipe :=
  { title := "Rice Bowl", image := "img", id := rid, isBookmarked := false,
    mealType := "main course", dietaryRestrictions := some [], prepTime := some 30,
    cuisine := "Unavailable", calories := some 400, servings := some servings,
    ingredients := some [sampleIngredient], instructions := some ["cook"],
    saturatedFat := some 2, sugar := some 1, fiber := some 3, sodium := some 10,
    cholesterol := some 0, iron := some 2, zinc := some 1, calcium := some 20,
    magnesium := some 30, protein := some 20, fats := some 10, carbs := some 50,
    percentProtein := some 20, percentFats := some 22, percentCarbs := some 58,
    percentDVProtein := some 40, percentDVFats := some 4, percentDVCarbs := some 64,
    numMissingIngredients := none, origin := "app" }

def emptyDayPlan : DayPlan :=
  { meals := { breakfast := [], lunch := [], snacks := [], dinner := [] },
    nutrition := { calories := some 0, protein := some 0, carbs := some 0, fats := some 0 } }

def sampleState (day4 : DayPlan) : AppState :=
  { pantry := [], ingredientSearchResults := [], browseSearchResults := [],
    recipeBook := [], mealPlan := [(4, [(4, day4), (5, emptyDayPlan)])] }

/-- The recipe list stored in one slot of one resident day. -/
def slotAt (mp : MealPlan) (d : ℤ) (m : MealSlot) : Option (List Recipe) :=
  (getDayMealPlan mp d).map (fun p => p.2.meals.get m)

/-- The concrete day plan used by the C9 and C10 witnesses: a two-recipe
breakfast. -/
def c9DayPlan : DayPlan :=
  { emptyDayPlan with
    meals := { breakfast := [sampleRecipe 1 2, sampleRecipe 2 3],
               lunch := [], snacks := [], dinner := [] } }

/-- The meal-plan mutations of the model layer: add a recipe to a slot
(covering plain adds, replaces and — with a meal-plan source — moves),
delete a scheduled recipe, and add a custom meal entry. -/
inductive PlanMutation where
  | addRecipe (recipeId : ℤ) (userInputs : UserInputs) (options : Source)
  | deleteRecipe (recipeId : ℤ) (dayDateString : ℤ) (mealTime : MealSlot)
  | customEntry (inputs : CustomEntryInputs) (freshId : ℤ)

/-- Dispatch a meal-plan mutation to its model function. -/
def applyMutation (st : AppState) : PlanMutation → Option AppState
  | .addRecipe recipeId userInputs options => addRecipeToMealPlan st recipeId userInputs options
  | .deleteRecipe recipeId dayDateString mealTime =>
    deleteRecipeFromMealPlan st recipeId dayDateString mealTime
  | .customEntry inputs freshId => createCustomMealEntry st inputs freshId

/-- The week keys a mutation affects (whose days get their nutrition
recomputed): the target day's week — and, for a move out of the meal plan,
also the source day's week, recomputed by the closing delete. -/
def mutationWeeks : PlanMutation → List ℤ
  | .addRecipe _ userInputs (.mealPlan currentDate _) =>
    [getMondayOfTheWeek userInputs.date, getMondayOfTheWeek currentDate]
  | .addRecipe _ userInputs _ => [getMondayOfTheWeek userInputs.date]
  | .deleteRecipe _ dayDateString _ => [getMondayOfTheWeek dayDateString]
  | .customEntry inputs _ => [getMondayOfTheWeek inputs.date]

/-- Inputs of the custom meal entry used by the C1 witness (macros left as
the non-numeric sentinel). -/
def c1Inputs : CustomEntryInputs :=
  { date := 4, meal := .breakfast, mealName := "Protein Shake",
    mealCalories := none, mealProtein := none, mealCarbs := none,
    mealFats := none }

/-- Day 4 after the C1 witness mutation: the custom entry sits in breakfast
and, its macros being non-numeric, the recomputed totals are poisoned. -/
def c1Day : DayPlan :=
  { meals := { breakfast := [createCustomRecipeObject c1Inputs 99], lunch := [],
               snacks := [], dinner := [] },
    nutrition := { calories := none, protein := none, carbs := none,
                   fats := none } }

/-- The state after the C1 witness mutation. -/
def c1State : AppState :=
  { pantry := [], ingredientSearchResults := [], browseSearchResults := [],
    recipeBook := [], mealPlan := [(4, [(4, c1Day), (5, emptyDayPlan)])] }

/-- The bookmarked copy produced by the C4 witness toggle. -/
def c4Recipe : Recipe := { sampleRecipe 1 2 with isBookmarked := true }

/-- The C4 witness start state: one un-bookmarked browse result, empty book. -/
def c4Start : AppState :=
  { sampleState emptyDayPlan with browseSearchResults := [sampleRecipe 1 2] }

/-- The C4 witness end state: the copy is flagged everywhere and sits in the
book. -/
def c4End : AppState :=
  { sampleState emptyDayPlan with
    browseSearchResults := [c4Recipe]
    recipeBook := [c4Recipe] }

/-! ## Association-list lemmas -/

theorem lookupA_setA {α : Type} (l : List (ℤ × α)) (k : ℤ) (f : α → α) (k' : ℤ) :
    lookupA (setA l k f) k' = if k' = k then (lookupA l k').map f else lookupA l k' := by
  induction l with
  | nil => simp [lookupA, setA]
  | cons e rest ih =>
    obtain ⟨a, v⟩ := e
    by_cases hak' : a = k'
    · subst hak'
      by_cases hak : a = k <;> simp [lookupA, setA, hak]
    · by_cases hk'k : k' = k
      · subst hk'k
        simp [lookupA, setA, hak', ih]
      · simp [lookupA, setA, hak', hk'k, ih]

theorem setA_keys {α : Type} (l : List (ℤ × α)) (k : ℤ) (f : α → α) :
    (setA l k f).map Prod.fst = l.map Prod.fst := by
  induction l with
  | nil => rfl
  | cons e rest ih =>
    obtain ⟨a, v⟩ := e
    simp [setA, ih]

theorem lookupA_mem {α : Type} {l : List (ℤ × α)} {k : ℤ} {v : α}
    (h : lookupA l k = some v) : (k, v) ∈ l := by
  induction l with
  | nil => simp [lookupA] at h
  | cons e rest ih =>
    obtain ⟨a, w⟩ := e
    by_cases hak : a = k
    · subst hak
      simp [lookupA] at h
      simp [h]
    · simp [lookupA, hak] at h
      exact List.mem_cons_of_mem _ (ih h)

theorem lookupA_mem_keys {α : Type} {l : List (ℤ × α)} {k : ℤ} {v : α}
    (h : lookupA l k = some v) : k ∈ l.map Prod.fst := by
  exact List.mem_map.mpr ⟨(k, v), lookupA_mem h, rfl⟩

theorem mem_keys_lookupA {α : Type} {l : List (ℤ × α)} {k : ℤ}
    (h : k ∈ l.map Prod.fst) : ∃ v, lookupA l k = some v := by
  induction l with
  | nil => simp at h
  | cons e rest ih =>
    obtain ⟨a, w⟩ := e
    by_cases hak : a = k
    · subst hak; exact ⟨w, by simp [lookupA]⟩
    · simp only [List.map_cons, List.mem_cons] at h
      rcases h with h | h
      · exact absurd h.symm hak
      · obtain ⟨v, hv⟩ := ih h
        exact ⟨v, by simp [lookupA, hak, hv]⟩

theorem Meals.get_set_self (m : Meals) (s : MealSlot) (l : List Recipe) :
    (m.set s l).get s = l := by
  cases s <;> rfl

theorem Meals.get_set_ne (m : Meals) (s s' : MealSlot) (l : List Recipe) (h : s' ≠ s) :
    (m.set s l).get s' = m.get s' := by
  cases s <;> cases s' <;> first | rfl | exact absurd rfl h

/-! ## Splice and find lemmas -/

theorem jsSpliceIndex_neg_one (len : ℕ) : jsSpliceIndex len (-1) = len - 1 := by
  simp only [jsSpliceIndex, if_pos (by norm_num : (-1 : ℤ) < 0)]
  omega

theorem jsSpliceRemoveOne_neg_one {α : Type} (l : List α) :
    jsSpliceRemoveOne l (-1) = l.dropLast := by
  cases l with
  | nil => rfl
  | cons a rest =>
    simp only [jsSpliceRemoveOne, jsSpliceIndex_neg_one, List.length_cons,
      Nat.add_sub_cancel]
    have hdrop : (a :: rest).drop (rest.length + 1) = [] := by
      apply List.drop_eq_nil_of_le
      simp
    rw [hdrop, List.dropLast_eq_take]
    simp

theorem jsFindIndex_eq_neg_one {α : Type} {p : α → Bool} {l : List α}
    (h : ∀ x ∈ l, p x = false) : jsFindIndex p l = -1 := by
  have hnone : l.findIdx? p = none := by
    rw [List.findIdx?_eq_none_iff]
    intro x hx
    simp [h x hx]
  simp [jsFindIndex, hnone]

/-! ## Plan well-formedness and the nutrition recomputation -/

theorem wellFormedPlan_lookup {mp : MealPlan} (h : WellFormedPlan mp) {w : ℤ} {week : WeekPlan}
    (hw : lookupA mp w = some week) : ∀ d ∈ week.map Prod.fst, getMondayOfTheWeek d = w :=
  h (w, week) (lookupA_mem hw)

theorem wellFormedPlan_setA (w : ℤ) {f : WeekPlan → WeekPlan}
    (hf : ∀ week, (f week).map Prod.fst = week.map Prod.fst) :
    ∀ {mp : MealPlan}, WellFormedPlan mp → WellFormedPlan (setA mp w f) := by
  intro mp
  induction mp with
  | nil => intro _ we hwe; simp [setA] at hwe
  | cons e rest ih =>
    obtain ⟨a, week⟩ := e
    intro h weekEntry hmem d hd
    simp only [setA, List.mem_cons] at hmem
    rcases hmem with rfl | hmem
    · have hd' : d ∈ week.map Prod.fst := by
        by_cases haw : a = w
        · simpa [haw, hf week] using hd
        · simpa [haw] using hd
      exact h (a, week) (by simp) d hd'
    · exact ih (fun we hwe d' hd' => h we (List.mem_cons_of_mem _ hwe) d' hd')
        weekEntry hmem d hd

theorem wellFormedPlan_updateDayPlan {mp : MealPlan} (h : WellFormedPlan mp) (d : ℤ)
    (f : DayPlan → DayPlan) : WellFormedPlan (updateDayPlan mp d f) :=
  wellFormedPlan_setA _ (fun week => setA_keys week d f) h

theorem resetAndSum_meals (dp : DayPlan) :
    (resetAndSumDayNutrition dp).meals = dp.meals := rfl

theorem resetAndSum_idem (dp : DayPlan) :
    resetAndSumDayNutrition (resetAndSumDayNutrition dp) = resetAndSumDayNutrition dp := rfl

theorem recompFlag_setA (K : List ℤ) (d : ℤ) (week : WeekPlan) :
    recompFlag K (setA week d resetAndSumDayNutrition) = recompFlag (d :: K) week := by
  induction week with
  | nil => rfl
  | cons e rest ih =>
    obtain ⟨a, dp⟩ := e
    simp only [recompFlag, setA, List.map_cons, List.mem_cons, List.cons.injEq] at ih ⊢
    refine ⟨?_, ih⟩
    by_cases had : a = d
    · by_cases haK : a ∈ K <;> simp [had, haK, resetAndSum_idem]
    · by_cases haK : a ∈ K <;> simp [had, haK]

theorem lookupA_recompFlag (K : List ℤ) (week : WeekPlan) (d : ℤ) :
    lookupA (recompFlag K week) d =
      (lookupA week d).map (fun dp => if d ∈ K then resetAndSumDayNutrition dp else dp) := by
  induction week with
  | nil => rfl
  | cons e rest ih =>
    obtain ⟨a, dp⟩ := e
    by_cases had : a = d
    · subst had
      simp [recompFlag, lookupA]
    · simp only [recompFlag, List.map_cons, lookupA, if_neg had]
      simpa [recompFlag] using ih

theorem recompFlag_keys (K : List ℤ) (week : WeekPlan) :
    (recompFlag K week).map Prod.fst = week.map Prod.fst := by
  simp [recompFlag]

/-- What the `for (const day in weekPlan)` loop does to the plan: weeks other
than `w` are untouched, and week `w` is transformed by `recompFlag K`. -/
theorem updateNutritionForDays_spec {w : ℤ} :
    ∀ (K : List ℤ) (mp mp' : MealPlan), (∀ d ∈ K, getMondayOfTheWeek d = w) →
    updateNutritionForDays mp K = some mp' →
    (∀ w', w' ≠ w → lookupA mp' w' = lookupA mp w') ∧
    lookupA mp' w = (lookupA mp w).map (recompFlag K) := by
  intro K
  induction K with
  | nil =>
    intro mp mp' hK h
    simp only [updateNutritionForDays, Option.some.injEq] at h
    subst h
    refine ⟨fun _ _ => rfl, ?_⟩
    have : recompFlag [] = id := by
      funext week
      simp [recompFlag]
    simp [this]
  | cons d K' ih =>
    intro mp mp' hK h
    simp only [updateNutritionForDays] at h
    cases hstep : updateNutritionForDay mp d with
    | none => rw [hstep] at h; exact absurd h (by simp)
    | some mp1 =>
      rw [hstep] at h
      cases hg : getDayMealPlan mp d with
      | none => simp [updateNutritionForDay, hg] at hstep
      | some pair =>
        have hmp1 : mp1 = updateDayPlan mp d resetAndSumDayNutrition := by
          simp [updateNutritionForDay, hg] at hstep
          exact hstep.symm
        have hw : getMondayOfTheWeek d = w := hK d (by simp)
        obtain ⟨hframe, hmain⟩ := ih mp1 mp' (fun e he => hK e (by simp [he])) h
        constructor
        · intro w' hw'
          rw [hframe w' hw', hmp1]
          simp only [updateDayPlan, hw]
          rw [lookupA_setA]
          simp [if_neg hw']
        · rw [hmain, hmp1]
          simp only [updateDayPlan, hw]
          rw [lookupA_setA]
          simp only [if_pos rfl, Option.map_map]
          cases lookupA mp w with
          | none => rfl
          | some week => simp [Function.comp, recompFlag_setA]

/-- The loop succeeds (no day dereference throws) when every listed day is
resident in week `w`. -/
theorem updateNutritionForDays_total {w : ℤ} :
    ∀ (K : List ℤ) (mp : MealPlan), (∀ d ∈ K, getMondayOfTheWeek d = w) →
    (∀ d ∈ K, ∃ week, lookupA mp w = some week ∧ d ∈ week.map Prod.fst) →
    ∃ mp', updateNutritionForDays mp K = some mp' := by
  intro K
  induction K with
  | nil => intro mp _ _; exact ⟨mp, rfl⟩
  | cons d K' ih =>
    intro mp hK hres
    obtain ⟨week, hwk, hd⟩ := hres d (by simp)
    obtain ⟨dp, hdp⟩ := mem_keys_lookupA hd
    have hw : getMondayOfTheWeek d = w := hK d (by simp)
    have hg : getDayMealPlan mp d = some (w, dp) := by
      simp [getDayMealPlan, hw, hwk, hdp]
    have hstep : updateNutritionForDay mp d =
        some (updateDayPlan mp d resetAndSumDayNutrition) := by
      simp [updateNutritionForDay, hg]
    obtain ⟨mp', hmp'⟩ := ih (updateDayPlan mp d resetAndSumDayNutrition)
      (fun e he => hK e (by simp [he]))
      (fun e he => by
        obtain ⟨week0, hwk0, hd0⟩ := hres e (by simp [he])
        refine ⟨setA week0 d resetAndSumDayNutrition, ?_, ?_⟩
        · simp only [updateDayPlan, hw]
          rw [lookupA_setA]
          simp [hwk0]
        · rw [setA_keys]; exact hd0)
    exact ⟨mp', by simp [updateNutritionForDays, hstep, hmp']⟩

/-- `updateNutritionForWeek` frame and effect, under well-formed day keys. -/
theorem updateNutritionForWeek_spec {mp mp' : MealPlan} {w : ℤ}
    (hwf : ∀ week, lookupA mp w = some week → ∀ d ∈ week.map Prod.fst, getMondayOfTheWeek d = w)
    (h : updateNutritionForWeek mp w = some mp') :
    (∀ w', w' ≠ w → lookupA mp' w' = lookupA mp w') ∧
    lookupA mp' w = (lookupA mp w).map (recompFlag (((lookupA mp w).getD []).map Prod.fst)) := by
  unfold updateNutritionForWeek at h
  cases hwk : lookupA mp w with
  | none =>
    rw [hwk] at h
    simp only [Option.some.injEq] at h
    subst h
    exact ⟨fun _ _ => rfl, by simp [hwk]⟩
  | some week =>
    rw [hwk] at h
    have := updateNutritionForDays_spec (week.map Prod.fst) mp mp' (hwf week hwk) h
    simpa [hwk] using this

/-- `updateNutritionForWeek` cannot throw when the week's day keys are
well-formed. -/
theorem updateNutritionForWeek_total (mp : MealPlan) (w : ℤ)
    (hwf : ∀ week, lookupA mp w = some week → ∀ d ∈ week.map Prod.fst, getMondayOfTheWeek d = w) :
    ∃ mp', updateNutritionForWeek mp w = some mp' := by
  unfold updateNutritionForWeek
  cases hwk : lookupA mp w with
  | none => exact ⟨mp, rfl⟩
  | some week =>
    exact updateNutritionForDays_total (week.map Prod.fst) mp (hwf week hwk)
      (fun d hd => ⟨week, hwk, hd⟩)

/-- After a successful `updateNutritionForWeek` on well-formed day keys,
every resident day of week `w` carries exactly the reset-and-sum totals of
its own (unchanged) meals. -/
theorem updateNutritionForWeek_day {mp mp' : MealPlan} {w : ℤ}
    (hwf : ∀ week, lookupA mp w = some week → ∀ d ∈ week.map Prod.fst, getMondayOfTheWeek d = w)
    (h : updateNutritionForWeek mp w = some mp') {week' : WeekPlan} {d : ℤ} {dp' : DayPlan}
    (hwk' : lookupA mp' w = some week') (hdp' : lookupA week' d = some dp') :
    dp'.nutrition = dp'.meals.all.foldl addRecipeNutrition zeroNutrition ∧
    ∃ week dp, lookupA mp w = some week ∧ lookupA week d = some dp ∧
      dp' = resetAndSumDayNutrition dp := by
  obtain ⟨_, hmain⟩ := updateNutritionForWeek_spec hwf h
  rw [hwk'] at hmain
  cases hwk : lookupA mp w with
  | none => rw [hwk] at hmain; exact absurd hmain.symm (by simp)
  | some week =>
    rw [hwk] at hmain
    simp only [Option.getD_some, Option.map] at hmain
    have hmain' : week' = recompFlag (week.map Prod.fst) week := by
      exact Option.some.inj hmain
    rw [hmain'] at hdp'
    rw [lookupA_recompFlag] at hdp'
    cases hdp : lookupA week d with
    | none => rw [hdp] at hdp'; exact absurd hdp' (by simp)
    | some dp =>
      rw [hdp] at hdp'
      have hdK : d ∈ week.map Prod.fst := lookupA_mem_keys hdp
      simp only [Option.map, Option.some.injEq, if_pos hdK] at hdp'
      refine ⟨?_, week, dp, rfl, hdp, hdp'.symm⟩
      rw [← hdp']
      simp [resetAndSumDayNutrition, resetAndSum_meals]

/-- Evaluating the nutrition accumulation when every summand is numeric. -/
theorem foldl_addRecipeNutrition (l : List Recipe) :
    ∀ (a b c e : ℚ),
    (∀ r ∈ l, r.calories.isSome ∧ r.protein.isSome ∧ r.carbs.isSome ∧ r.fats.isSome) →
    l.foldl addRecipeNutrition ⟨some a, some b, some c, some e⟩ =
      ⟨some (a + (l.map (fun r => r.calories.getD 0)).sum),
       some (b + (l.map (fun r => r.protein.getD 0)).sum),
       some (c + (l.map (fun r => r.carbs.getD 0)).sum),
       some (e + (l.map (fun r => r.fats.getD 0)).sum)⟩ := by
  induction l with
  | nil => intro a b c e _; simp
  | cons r rest ih =>
    intro a b c e h
    obtain ⟨h1, h2, h3, h4⟩ := h r (by simp)
    obtain ⟨x1, hx1⟩ := Option.isSome_iff_exists.mp h1
    obtain ⟨x2, hx2⟩ := Option.isSome_iff_exists.mp h2
    obtain ⟨x3, hx3⟩ := Option.isSome_iff_exists.mp h3
    obtain ⟨x4, hx4⟩ := Option.isSome_iff_exists.mp h4
    have hstep : addRecipeNutrition ⟨some a, some b, some c, some e⟩ r =
        ⟨some (a + x1), some (b + x2), some (c + x3), some (e + x4)⟩ := by
      simp [addRecipeNutrition, jsAdd, hx1, hx2, hx3, hx4]
    simp only [List.foldl_cons, hstep]
    rw [ih (a + x1) (b + x2) (c + x3) (e + x4) (fun q hq => h q (by simp [hq]))]
    simp [hx1, hx2, hx3, hx4]
    constructor
    · ring
    constructor
    · ring
    constructor
    · ring
    · ring

/-! ## Running the meal-plan operations -/

theorem getDayMealPlan_iff {mp : MealPlan} {d w : ℤ} {dp : DayPlan} :
    getDayMealPlan mp d = some (w, dp) ↔
      w = getMondayOfTheWeek d ∧ ∃ week, lookupA mp (getMondayOfTheWeek d) = some week ∧
        lookupA week d = some dp := by
  unfold getDayMealPlan
  cases hwk : lookupA mp (getMondayOfTheWeek d) with
  | none => simp
  | some week =>
    cases hdp : lookupA week d with
    | none => simp [hdp]
    | some dp0 =>
      simp only [hdp, Option.some.injEq, Prod.mk.injEq]
      constructor
      · rintro ⟨h1, h2⟩
        exact ⟨h1.symm, week, rfl, by rw [hdp, h2]⟩
      · rintro ⟨rfl, week0, hw0, hd0⟩
        subst hw0
        rw [hdp] at hd0
        exact ⟨rfl, Option.some.inj hd0⟩

/-- Complete description of a successful `deleteRecipeFromMealPlan` run on a
well-formed plan with the target day resident: only the target week's entry
changes, by deleting in the day's slot and recomputing that week's
nutrition. -/
theorem deleteRecipeFromMealPlan_run {st : AppState} (recipeId : ℤ) {d : ℤ} (m : MealSlot)
    {week : WeekPlan} (hwf : WellFormedPlan st.mealPlan)
    (hwk : lookupA st.mealPlan (getMondayOfTheWeek d) = some week)
    (hdres : d ∈ week.map Prod.fst) :
    ∃ st', deleteRecipeFromMealPlan st recipeId d m = some st' ∧
      st'.pantry = st.pantry ∧
      st'.ingredientSearchResults = st.ingredientSearchResults ∧
      st'.browseSearchResults = st.browseSearchResults ∧
      st'.recipeBook = st.recipeBook ∧
      (∀ w', w' ≠ getMondayOfTheWeek d → lookupA st'.mealPlan w' = lookupA st.mealPlan w') ∧
      lookupA st'.mealPlan (getMondayOfTheWeek d) =
        some (recompFlag (week.map Prod.fst)
          (setA week d (deleteFromDayPlan recipeId m))) := by
  obtain ⟨dp, hdp⟩ := mem_keys_lookupA hdres
  have hday : getDayMealPlan st.mealPlan d = some (getMondayOfTheWeek d, dp) :=
    getDayMealPlan_iff.mpr ⟨rfl, week, hwk, hdp⟩
  have hwf1 : WellFormedPlan (updateDayPlan st.mealPlan d (deleteFromDayPlan recipeId m)) :=
    wellFormedPlan_updateDayPlan hwf d _
  have hmp1wk : lookupA (updateDayPlan st.mealPlan d (deleteFromDayPlan recipeId m))
      (getMondayOfTheWeek d) = some (setA week d (deleteFromDayPlan recipeId m)) := by
    unfold updateDayPlan
    rw [lookupA_setA]
    simp [hwk]
  obtain ⟨mp2, hmp2⟩ := updateNutritionForWeek_total
    (updateDayPlan st.mealPlan d (deleteFromDayPlan recipeId m)) (getMondayOfTheWeek d)
    (fun week1 hwk1 => wellFormedPlan_lookup hwf1 hwk1)
  obtain ⟨hframe, hmain⟩ := updateNutritionForWeek_spec
    (fun week1 hwk1 => wellFormedPlan_lookup hwf1 hwk1) hmp2
  refine ⟨{ st with mealPlan := mp2 }, ?_, rfl, rfl, rfl, rfl, ?_, ?_⟩
  · unfold deleteRecipeFromMealPlan
    rw [hday]
    simp only [hmp2]
  · intro w' hw'
    rw [hframe w' hw']
    unfold updateDayPlan
    rw [lookupA_setA]
    simp [hw']
  · rw [hmain, hmp1wk]
    simp [setA_keys]

/-! ## Locating recipes after a servings write-back -/

theorem updateProperties_id (q u : Recipe) : (updateProperties q u).id = q.id := rfl

theorem updateProperties_self (r : Recipe) : updateProperties r r = r := rfl

theorem adjustedRecipe_id (r : Recipe) (ings : List Ingredient) (u : Option ℚ) :
    (adjustedRecipe r ings u).id = r.id := rfl

theorem adjustedRecipe_servings (r : Recipe) (ings : List Ingredient) (u : Option ℚ) :
    (adjustedRecipe r ings u).servings = u := rfl

theorem getRecipe_id {st : AppState} {recipeId : ℤ} {source : Source} {recipe : Recipe}
    (h : getRecipe st recipeId source = some recipe) : recipe.id = recipeId := by
  cases source with
  | mealPlan d m =>
    simp only [getRecipe, getRecipeFromMealPlan] at h
    cases hg : getDayMealPlan st.mealPlan d with
    | none => rw [hg] at h; exact absurd h (by simp)
    | some pair =>
      obtain ⟨w, dp⟩ := pair
      simp only [hg] at h
      have hp := List.find?_some h
      exact eq_of_beq (by simpa using hp)
  | ingredientSearch =>
    simp only [getRecipe, getRecipeFromBrowse, getSourceArray] at h
    have hp := List.find?_some h
    exact eq_of_beq (by simpa using hp)
  | browseRecipeSearch =>
    simp only [getRecipe, getRecipeFromBrowse, getSourceArray] at h
    have hp := List.find?_some h
    exact eq_of_beq (by simpa using hp)
  | recipeBook =>
    simp only [getRecipe, getRecipeFromBrowse, getSourceArray] at h
    have hp := List.find?_some h
    exact eq_of_beq (by simpa using hp)

theorem replaceFirstById_find? {l : List Recipe} {recipeId : ℤ} {r : Recipe}
    (h : l.find? (fun x => x.id == recipeId) = some r) (r' : Recipe) (hid : r'.id = recipeId) :
    (replaceFirstById l recipeId r').find? (fun x => x.id == recipeId) = some r' := by
  induction l with
  | nil => simp [List.find?] at h
  | cons x rest ih =>
    by_cases hx : x.id = recipeId
    · simp [replaceFirstById, hx, List.find?, hid]
    · have hbeq : (x.id == recipeId) = false := by simpa using hx
      simp only [List.find?, hbeq] at h
      simp only [replaceFirstById, hbeq, Bool.false_eq_true, if_false, List.find?]
      exact ih h

theorem find?_map_updateProps (l : List Recipe) (recipeId : ℤ) (r' : Recipe) :
    (l.map (fun q => if q.id == recipeId then updateProperties q r' else q)).find?
        (fun x => x.id == recipeId) =
      (l.find? (fun x => x.id == recipeId)).map
        (fun q => if q.id == recipeId then updateProperties q r' else q) := by
  rw [List.find?_map]
  have hpred : ((fun x => x.id == recipeId) ∘
      fun q => if q.id == recipeId then updateProperties q r' else q) =
      (fun x : Recipe => x.id == recipeId) := by
    funext q
    by_cases hq : q.id = recipeId
    · simp [Function.comp, hq, updateProperties_id]
    · simp [Function.comp, hq]
  rw [hpred]

/-! ## Running `adjustServings` -/

theorem adjustServings_invalid {st : AppState} {recipeId : ℤ} {operation : Option String}
    {source : Source} {newServings : Option (Option ℚ)} {recipe : Recipe}
    (hfound : getRecipe st recipeId source = some recipe)
    (hinvalid : isValidServings (calculateUpdatedServings recipe.servings operation newServings) = false) :
    adjustServings st recipeId operation source newServings = some st := by
  unfold adjustServings
  simp [hfound, hinvalid]

theorem adjustServings_valid_mealPlan {st : AppState} {recipeId : ℤ} {operation : Option String}
    {d : ℤ} {m : MealSlot} {newServings : Option (Option ℚ)} {recipe : Recipe}
    {ings : List Ingredient}
    (hfound : getRecipe st recipeId (.mealPlan d m) = some recipe)
    (hing : recipe.ingredients = some ings)
    (hvalid : isValidServings (calculateUpdatedServings recipe.servings operation newServings) = true) :
    adjustServings st recipeId operation (.mealPlan d m) newServings =
      some (writeBackRecipe st recipeId
        (adjustedRecipe recipe ings (calculateUpdatedServings recipe.servings operation newServings))
        (.mealPlan d m)) := by
  unfold adjustServings
  simp [hfound, hvalid, hing]

theorem adjustServings_valid_browse {st : AppState} {recipeId : ℤ} {operation : Option String}
    {source : Source} {newServings : Option (Option ℚ)} {recipe : Recipe}
    {ings : List Ingredient}
    (hsource : ∀ d m, source ≠ .mealPlan d m)
    (hfound : getRecipe st recipeId source = some recipe)
    (hing : recipe.ingredients = some ings)
    (hvalid : isValidServings (calculateUpdatedServings recipe.servings operation newServings) = true) :
    adjustServings st recipeId operation source newServings =
      some (synchronizeRecipeInstances
        (writeBackRecipe st recipeId
          (adjustedRecipe recipe ings (calculateUpdatedServings recipe.servings operation newServings))
          source)
        (adjustedRecipe recipe ings (calculateUpdatedServings recipe.servings operation newServings))) := by
  cases source with
  | mealPlan d m => exact absurd rfl (hsource d m)
  | ingredientSearch => unfold adjustServings; simp [hfound, hvalid, hing]
  | browseRecipeSearch => unfold adjustServings; simp [hfound, hvalid, hing]
  | recipeBook => unfold adjustServings; simp [hfound, hvalid, hing]

theorem getRecipe_writeBack {st : AppState} {recipeId : ℤ} {source : Source} {recipe : Recipe}
    (hfound : getRecipe st recipeId source = some recipe)
    (r' : Recipe) (hid : r'.id = recipeId) :
    getRecipe (writeBackRecipe st recipeId r' source) recipeId source = some r' := by
  cases source with
  | ingredientSearch =>
    simp only [getRecipe, getRecipeFromBrowse, getSourceArray, writeBackRecipe] at hfound ⊢
    exact replaceFirstById_find? hfound r' hid
  | browseRecipeSearch =>
    simp only [getRecipe, getRecipeFromBrowse, getSourceArray, writeBackRecipe] at hfound ⊢
    exact replaceFirstById_find? hfound r' hid
  | recipeBook =>
    simp only [getRecipe, getRecipeFromBrowse, getSourceArray, writeBackRecipe] at hfound ⊢
    exact replaceFirstById_find? hfound r' hid
  | mealPlan d m =>
    simp only [getRecipe, getRecipeFromMealPlan, writeBackRecipe] at hfound ⊢
    cases hg : getDayMealPlan st.mealPlan d with
    | none => simp only [hg] at hfound; exact absurd hfound (by simp)
    | some pair =>
      obtain ⟨w, dp⟩ := pair
      simp only [hg] at hfound
      obtain ⟨hw, week, hwk, hdp⟩ := getDayMealPlan_iff.mp hg
      have hg' : getDayMealPlan
          (setA st.mealPlan (getMondayOfTheWeek d) (fun week => setA week d (fun dayPlan =>
            { dayPlan with
              meals := dayPlan.meals.set m
                (replaceFirstById (dayPlan.meals.get m) recipeId r') }))) d =
          some (getMondayOfTheWeek d,
            { dp with
              meals := dp.meals.set m (replaceFirstById (dp.meals.get m) recipeId r') }) := by
        apply getDayMealPlan_iff.mpr
        refine ⟨rfl, setA week d (fun dayPlan =>
          { dayPlan with
            meals := dayPlan.meals.set m
              (replaceFirstById (dayPlan.meals.get m) recipeId r') }), ?_, ?_⟩
        · rw [lookupA_setA]
          simp [hwk]
        · rw [lookupA_setA]
          simp [hdp]
      simp only [hg', Meals.get_set_self]
      exact replaceFirstById_find? hfound r' hid

theorem getRecipe_sync {st1 : AppState} {recipeId : ℤ} {source : Source} {r' : Recipe}
    (hsource : ∀ d m, source ≠ .mealPlan d m) (hid : r'.id = recipeId)
    (hfound1 : getRecipe st1 recipeId source = some r') :
    getRecipe (synchronizeRecipeInstances st1 r') recipeId source = some r' := by
  have hconv : ∀ l : List Recipe, l.find? (fun x => x.id == recipeId) = some r' →
      (l.map (fun q => if q.id == r'.id then updateProperties q r' else q)).find?
        (fun x => x.id == recipeId) = some r' := by
    intro l hl
    rw [hid, find?_map_updateProps, hl]
    simp [updateProperties_self]
  cases source with
  | mealPlan d m => exact absurd rfl (hsource d m)
  | ingredientSearch =>
    simp only [getRecipe, getRecipeFromBrowse, getSourceArray,
      synchronizeRecipeInstances] at hfound1 ⊢
    exact hconv _ hfound1
  | browseRecipeSearch =>
    simp only [getRecipe, getRecipeFromBrowse, getSourceArray,
      synchronizeRecipeInstances] at hfound1 ⊢
    exact hconv _ hfound1
  | recipeBook =>
    simp only [getRecipe, getRecipeFromBrowse, getSourceArray,
      synchronizeRecipeInstances] at hfound1 ⊢
    exact hconv _ hfound1

/-! ## Claim C2: servings bounds and silent rejection -/

/-- Claim C2: for any located recipe instance (with an actual ingredient
array) and any adjustment whose computed new serving count is the number
`u`: if `u` falls outside `[1, 50]` the function returns normally with the
whole state — and in particular the recipe entity — unchanged and no error
surfaced; otherwise the servings value written to the entity is `u`, which
lies in `[1, 50]`. -/
theorem C2_servings_bounds {st : AppState} {recipeId : ℤ} {operation : Option String}
    {source : Source} {newServings : Option (Option ℚ)} {recipe : Recipe}
    {ings : List Ingredient} {u : ℚ}
    (hfound : getRecipe st recipeId source = some recipe)
    (hing : recipe.ingredients = some ings)
    (hu : calculateUpdatedServings recipe.servings operation newServings = some u) :
    ((u < 1 ∨ u > 50) → adjustServings st recipeId operation source newServings = some st) ∧
    (1 ≤ u → u ≤ 50 → ∃ st' r',
      adjustServings st recipeId operation source newServings = some st' ∧
      getRecipe st' recipeId source = some r' ∧
      r'.servings = some u ∧ 1 ≤ u ∧ u ≤ 50) := by
  constructor
  · intro hout
    have hinvalid : isValidServings
        (calculateUpdatedServings recipe.servings operation newServings) = false := by
      rw [hu]
      unfold isValidServings
      rcases hout with h | h <;> simp [h]
    exact adjustServings_invalid hfound hinvalid
  · intro h1 h50
    have hvalid : isValidServings
        (calculateUpdatedServings recipe.servings operation newServings) = true := by
      rw [hu]
      unfold isValidServings
      simp [not_lt.mpr h1, not_lt.mpr h50]
    have hid' : (adjustedRecipe recipe ings
        (calculateUpdatedServings recipe.servings operation newServings)).id = recipeId := by
      rw [adjustedRecipe_id]
      exact getRecipe_id hfound
    cases hsrc : source with
    | mealPlan d m =>
      subst hsrc
      refine ⟨_, adjustedRecipe recipe ings
        (calculateUpdatedServings recipe.servings operation newServings),
        adjustServings_valid_mealPlan hfound hing hvalid,
        getRecipe_writeBack hfound _ hid', ?_, h1, h50⟩
      rw [adjustedRecipe_servings, hu]
    | ingredientSearch =>
      subst hsrc
      refine ⟨_, adjustedRecipe recipe ings
        (calculateUpdatedServings recipe.servings operation newServings),
        adjustServings_valid_browse (by intro d m h; cases h) hfound hing hvalid,
        getRecipe_sync (by intro d m h; cases h) hid'
          (getRecipe_writeBack hfound _ hid'), ?_, h1, h50⟩
      rw [adjustedRecipe_servings, hu]
    | browseRecipeSearch =>
      subst hsrc
      refine ⟨_, adjustedRecipe recipe ings
        (calculateUpdatedServings recipe.servings operation newServings),
        adjustServings_valid_browse (by intro d m h; cases h) hfound hing hvalid,
        getRecipe_sync (by intro d m h; cases h) hid'
          (getRecipe_writeBack hfound _ hid'), ?_, h1, h50⟩
      rw [adjustedRecipe_servings, hu]
    | recipeBook =>
      subst hsrc
      refine ⟨_, adjustedRecipe recipe ings
        (calculateUpdatedServings recipe.servings operation newServings),
        adjustServings_valid_browse (by intro d m h; cases h) hfound hing hvalid,
        getRecipe_sync (by intro d m h; cases h) hid'
          (getRecipe_writeBack hfound _ hid'), ?_, h1, h50⟩
      rw [adjustedRecipe_servings, hu]

/-- Claim C2 witness: an absolute override of 100 servings on a recipe-book
recipe is silently rejected, leaving the state untouched. -/
theorem C2_servings_bounds_witness :
    adjustServings { sampleState emptyDayPlan with recipeBook := [sampleRecipe 1 2] }
      1 none .recipeBook (some (some 100)) =
      some { sampleState emptyDayPlan with recipeBook := [sampleRecipe 1 2] } :=
  (@C2_servings_bounds { sampleState emptyDayPlan with recipeBook := [sampleRecipe 1 2] }
    1 none .recipeBook (some (some 100)) (sampleRecipe 1 2) [sampleIngredient] 100
    (by decide) (by decide) (by decide)).1 (by norm_num)

/-! ## Frame lemmas for day updates -/

theorem updateProperties_idem (q u : Recipe) :
    updateProperties (updateProperties q u) u = updateProperties q u := rfl

theorem adjustServings_ing_none {st : AppState} {recipeId : ℤ} {operation : Option String}
    {source : Source} {newServings : Option (Option ℚ)} {recipe : Recipe}
    (hfound : getRecipe st recipeId source = some recipe)
    (hvalid : isValidServings (calculateUpdatedServings recipe.servings operation newServings) = true)
    (hing : recipe.ingredients = none) :
    adjustServings st recipeId operation source newServings = none := by
  unfold adjustServings
  simp [hfound, hvalid, hing]

theorem getDayMealPlan_updateDayPlan (mp : MealPlan) (d : ℤ) (f : DayPlan → DayPlan) (d' : ℤ) :
    getDayMealPlan (updateDayPlan mp d f) d' =
      if d' = d then (getDayMealPlan mp d').map (fun p => (p.1, f p.2))
      else getDayMealPlan mp d' := by
  by_cases hd : d' = d
  · subst hd
    rw [if_pos rfl]
    unfold getDayMealPlan updateDayPlan
    rw [lookupA_setA, if_pos rfl]
    cases lookupA mp (getMondayOfTheWeek d') with
    | none => simp
    | some week =>
      simp only [Option.map]
      rw [lookupA_setA, if_pos rfl]
      cases lookupA week d' <;> simp
  · rw [if_neg hd]
    unfold getDayMealPlan updateDayPlan
    rw [lookupA_setA]
    by_cases hw : getMondayOfTheWeek d' = getMondayOfTheWeek d
    · rw [hw, if_pos rfl]
      cases lookupA mp (getMondayOfTheWeek d) with
      | none => simp
      | some week =>
        simp only [Option.map]
        rw [lookupA_setA, if_neg hd]
    · rw [if_neg hw]

/-! ## Claim C3: meal-plan independence and browse broadcast -/

/-- Claim C3.  First conjunct: adjusting servings on a meal-plan instance
(source is the meal plan, located by date `d` and slot `m`) leaves the
pantry, both search-result arrays, the recipe book and every other meal-plan
slot untouched — only the one scheduled instance can change.  Second
conjunct: when the source is a browsing context, every same-id copy in the
ingredient search results, browse search results and recipe book ends up
carrying exactly the broadcast fields (servings, ingredients and the
thirteen nutrients) of the adjusted recipe — stated as the copy being a
fixed point of `updateProperties` with the adjusted recipe. -/
theorem C3_adjust_frame_and_broadcast :
    (∀ (st : AppState) (recipeId : ℤ) (operation : Option String)
        (newServings : Option (Option ℚ)) (d : ℤ) (m : MealSlot) (st' : AppState),
      adjustServings st recipeId operation (.mealPlan d m) newServings = some st' →
      st'.pantry = st.pantry ∧
      st'.ingredientSearchResults = st.ingredientSearchResults ∧
      st'.browseSearchResults = st.browseSearchResults ∧
      st'.recipeBook = st.recipeBook ∧
      (∀ (d' : ℤ) (m' : MealSlot), ¬(d' = d ∧ m' = m) →
        slotAt st'.mealPlan d' m' = slotAt st.mealPlan d' m')) ∧
    (∀ (st : AppState) (recipeId : ℤ) (operation : Option String)
        (newServings : Option (Option ℚ)) (source : Source) (recipe : Recipe)
        (ings : List Ingredient) (st' : AppState),
      (∀ d m, source ≠ .mealPlan d m) →
      getRecipe st recipeId source = some recipe →
      recipe.ingredients = some ings →
      isValidServings (calculateUpdatedServings recipe.servings operation newServings) = true →
      adjustServings st recipeId operation source newServings = some st' →
      ∀ q, (q ∈ st'.ingredientSearchResults ∨ q ∈ st'.browseSearchResults ∨
            q ∈ st'.recipeBook) → q.id = recipeId →
        q = updateProperties q
          (adjustedRecipe recipe ings
            (calculateUpdatedServings recipe.servings operation newServings))) := by
  constructor
  · intro st recipeId operation newServings d m st' h
    cases hfound : getRecipe st recipeId (.mealPlan d m) with
    | none => unfold adjustServings at h; rw [hfound] at h; exact absurd h (by simp)
    | some recipe =>
      cases hval : isValidServings
          (calculateUpdatedServings recipe.servings operation newServings) with
      | false =>
        rw [adjustServings_invalid hfound hval] at h
        obtain rfl : st = st' := Option.some.inj h
        exact ⟨rfl, rfl, rfl, rfl, fun _ _ _ => rfl⟩
      | true =>
        cases hing : recipe.ingredients with
        | none =>
          rw [adjustServings_ing_none hfound hval hing] at h
          exact absurd h (by simp)
        | some ings =>
          rw [adjustServings_valid_mealPlan hfound hing hval] at h
          obtain rfl := (Option.some.inj h).symm
          refine ⟨rfl, rfl, rfl, rfl, ?_⟩
          intro d' m' hne
          show slotAt (updateDayPlan st.mealPlan d _) d' m' = _
          unfold slotAt
          rw [getDayMealPlan_updateDayPlan]
          by_cases hd : d' = d
          · subst hd
            have hm : ¬ m' = m := fun he => hne ⟨rfl, he⟩
            rw [if_pos rfl]
            cases getDayMealPlan st.mealPlan d' with
            | none => rfl
            | some p =>
              simp only [Option.map]
              rw [Meals.get_set_ne _ _ _ _ hm]
          · rw [if_neg hd]
  · intro st recipeId operation newServings source recipe ings st' hns hfound hing hval h
    rw [adjustServings_valid_browse hns hfound hing hval] at h
    obtain rfl := (Option.some.inj h).symm
    intro q hq hqid
    have hmem : ∀ (l : List Recipe),
        q ∈ l.map (fun r => if r.id == (adjustedRecipe recipe ings
            (calculateUpdatedServings recipe.servings operation newServings)).id
          then updateProperties r (adjustedRecipe recipe ings
            (calculateUpdatedServings recipe.servings operation newServings)) else r) →
        q = updateProperties q (adjustedRecipe recipe ings
          (calculateUpdatedServings recipe.servings operation newServings)) := by
      intro l hl
      obtain ⟨q0, _, hq0⟩ := List.mem_map.mp hl
      by_cases h0 : q0.id = (adjustedRecipe recipe ings
          (calculateUpdatedServings recipe.servings operation newServings)).id
      · rw [if_pos (by simpa using h0)] at hq0
        rw [← hq0, updateProperties_idem]
      · rw [if_neg (by simpa using h0)] at hq0
        rw [adjustedRecipe_id] at h0
        rw [← hq0] at hqid
        rw [hqid] at h0
        exact absurd (getRecipe_id hfound).symm h0
    rcases hq with hq | hq | hq
    · exact hmem _ hq
    · exact hmem _ hq
    · exact hmem _ hq

/-- Claim C3 witness: a meal-plan adjustment at day 4 / breakfast leaves the
recipe book and the lunch slot untouched. -/
theorem C3_adjust_frame_witness :
    ∃ st', adjustServings
        { sampleState { emptyDayPlan with
            meals := { breakfast := [sampleRecipe 1 2], lunch := [], snacks := [],
                       dinner := [] } } with
          recipeBook := [sampleRecipe 1 2] }
        1 none (.mealPlan 4 .breakfast) (some (some 5)) = some st' ∧
      st'.recipeBook = [sampleRecipe 1 2] ∧
      slotAt st'.mealPlan 5 .breakfast = some [] := by
  have hfound : getRecipe
      { sampleState { emptyDayPlan with
          meals := { breakfast := [sampleRecipe 1 2], lunch := [], snacks := [],
                     dinner := [] } } with
        recipeBook := [sampleRecipe 1 2] }
      1 (.mealPlan 4 .breakfast) = some (sampleRecipe 1 2) := by decide
  have hing : (sampleRecipe 1 2).ingredients = some [sampleIngredient] := by decide
  have hval : isValidServings
      (calculateUpdatedServings (sampleRecipe 1 2).servings none (some (some 5))) = true := by
    decide
  have hrun := adjustServings_valid_mealPlan hfound hing hval
  obtain ⟨_, _, _, hbook, hslots⟩ :=
    C3_adjust_frame_and_broadcast.1 _ 1 none (some (some 5)) 4 .breakfast _ hrun
  refine ⟨_, hrun, ?_, ?_⟩
  · rw [hbook]
  · rw [hslots 5 .breakfast (by intro hc; exact absurd hc.1 (by decide))]
    decide

/-! ## Claim C8: duplicate add into a slot is rejected -/

/-- Claim C8: when the target slot already holds a recipe with the requested
id and the operation is `"add"` (not `"replace"`), `controlAddRecipeToPlan`
renders the recipe-already-exists error and returns before any state
mutation or persistence — the returned state is the input state. -/
theorem C8_duplicate_add_rejected {st : AppState} {recipeId : ℤ} {userInputs : UserInputs}
    {options : Source} {ids : List ℤ}
    (hslot : mealsInMealSlot st userInputs.date userInputs.meal = some ids)
    (hdup : recipeId ∈ ids) (hop : userInputs.operation = "add") :
    controlAddRecipeToPlan st recipeId userInputs options = some (.rejectedDuplicate, st) := by
  have hcheck : isRecipeAlreadyInMealSlot st recipeId userInputs.date userInputs.meal
      userInputs.operation = some true := by
    unfold isRecipeAlreadyInMealSlot
    rw [hslot, hop]
    simp [hdup]
  unfold controlAddRecipeToPlan
  rw [hcheck]

/-- Claim C8 witness: adding id 1 into a breakfast slot that already holds
id 1, with operation `"add"`, is rejected with the state unchanged. -/
theorem C8_duplicate_add_rejected_witness :
    controlAddRecipeToPlan
      (sampleState { emptyDayPlan with
        meals := { breakfast := [sampleRecipe 1 2], lunch := [], snacks := [],
                   dinner := [] } })
      1 { date := 4, meal := .breakfast, operation := "add", numServings := some (some 3) }
      .recipeBook =
      some (.rejectedDuplicate,
        sampleState { emptyDayPlan with
          meals := { breakfast := [sampleRecipe 1 2], lunch := [], snacks := [],
                     dinner := [] } }) :=
  @C8_duplicate_add_rejected
    (sampleState { emptyDayPlan with
      meals := { breakfast := [sampleRecipe 1 2], lunch := [], snacks := [],
                 dinner := [] } })
    1 { date := 4, meal := .breakfast, operation := "add", numServings := some (some 3) }
    .recipeBook [1] (by decide) (by decide) (by decide)

/-! ## Slot-level frame lemmas for the meal-plan pipeline -/

theorem mem_mealSlots (m : MealSlot) : m ∈ mealSlots := by
  cases m <;> simp [mealSlots]

theorem slotAt_updateDayPlan (mp : MealPlan) (d : ℤ) (f : DayPlan → DayPlan)
    (d' : ℤ) (m' : MealSlot) :
    slotAt (updateDayPlan mp d f) d' m' =
      if d' = d then (getDayMealPlan mp d').map (fun p => (f p.2).meals.get m')
      else slotAt mp d' m' := by
  unfold slotAt
  rw [getDayMealPlan_updateDayPlan]
  by_cases hd : d' = d
  · rw [if_pos hd, if_pos hd, Option.map_map]
    rfl
  · rw [if_neg hd, if_neg hd]

theorem slotAt_of_lookup {mp : MealPlan} {d : ℤ} {week : WeekPlan} {dp : DayPlan}
    (hwk : lookupA mp (getMondayOfTheWeek d) = some week)
    (hdp : lookupA week d = some dp) (m : MealSlot) :
    slotAt mp d m = some (dp.meals.get m) := by
  unfold slotAt
  rw [getDayMealPlan_iff.mpr ⟨rfl, week, hwk, hdp⟩]
  rfl

theorem slotAt_resident {mp : MealPlan} {d : ℤ} {m : MealSlot} {l : List Recipe}
    (h : slotAt mp d m = some l) :
    ∃ week dp, lookupA mp (getMondayOfTheWeek d) = some week ∧
      lookupA week d = some dp ∧ dp.meals.get m = l := by
  unfold slotAt at h
  cases hg : getDayMealPlan mp d with
  | none => rw [hg] at h; exact absurd h (by simp)
  | some pair =>
    obtain ⟨w, dp⟩ := pair
    rw [hg] at h
    obtain ⟨hw, week, hwk, hdp⟩ := getDayMealPlan_iff.mp hg
    exact ⟨week, dp, hwk, hdp, by simpa using h⟩

theorem wellFormedPlan_updateNutritionForDays :
    ∀ (K : List ℤ) {mp mp' : MealPlan}, WellFormedPlan mp →
    updateNutritionForDays mp K = some mp' → WellFormedPlan mp' := by
  intro K
  induction K with
  | nil =>
    intro mp mp' hwf h
    simp only [updateNutritionForDays, Option.some.injEq] at h
    subst h
    exact hwf
  | cons d K' ih =>
    intro mp mp' hwf h
    simp only [updateNutritionForDays] at h
    cases hstep : updateNutritionForDay mp d with
    | none => rw [hstep] at h; exact absurd h (by simp)
    | some mp1 =>
      rw [hstep] at h
      cases hg : getDayMealPlan mp d with
      | none => simp [updateNutritionForDay, hg] at hstep
      | some pair =>
        have hmp1 : mp1 = updateDayPlan mp d resetAndSumDayNutrition := by
          simp [updateNutritionForDay, hg] at hstep
          exact hstep.symm
        subst hmp1
        exact ih (wellFormedPlan_updateDayPlan hwf d _) h

theorem wellFormedPlan_updateNutritionForWeek {mp mp' : MealPlan} {w : ℤ}
    (hwf : WellFormedPlan mp) (h : updateNutritionForWeek mp w = some mp') :
    WellFormedPlan mp' := by
  unfold updateNutritionForWeek at h
  cases hwk : lookupA mp w with
  | none =>
    rw [hwk] at h
    simp only [Option.some.injEq] at h
    subst h
    exact hwf
  | some week =>
    rw [hwk] at h
    exact wellFormedPlan_updateNutritionForDays (week.map Prod.fst) hwf h

theorem slotAt_updateNutritionForWeek {mp mp' : MealPlan} {w : ℤ}
    (hwf : ∀ week, lookupA mp w = some week → ∀ d ∈ week.map Prod.fst, getMondayOfTheWeek d = w)
    (h : updateNutritionForWeek mp w = some mp') (d : ℤ) (m : MealSlot) :
    slotAt mp' d m = slotAt mp d m := by
  obtain ⟨hframe, hmain⟩ := updateNutritionForWeek_spec hwf h
  unfold slotAt getDayMealPlan
  by_cases hw : getMondayOfTheWeek d = w
  · rw [hw, hmain]
    cases hwk : lookupA mp w with
    | none => rfl
    | some week =>
      simp only [Option.getD_some, Option.map]
      rw [lookupA_recompFlag]
      cases hdp : lookupA week d with
      | none => rfl
      | some dp =>
        simp only [Option.map]
        split <;> rfl
  · rw [hframe _ hw]

theorem addToDayPlan_replace_get_self (r : Recipe) (m : MealSlot) (dp : DayPlan) :
    (addToDayPlan r m "replace" dp).meals.get m = [r] := by
  simp [addToDayPlan, Meals.get_set_self]

theorem addToDayPlan_replace_get_ne (r : Recipe) (m : MealSlot) (dp : DayPlan)
    (m' : MealSlot) (h : m' ≠ m) :
    (addToDayPlan r m "replace" dp).meals.get m' = dp.meals.get m' := by
  simp [addToDayPlan, Meals.get_set_ne _ _ _ _ h]

theorem deleteFromDayPlan_get_self (recipeId : ℤ) (m : MealSlot) (dp : DayPlan) :
    (deleteFromDayPlan recipeId m dp).meals.get m =
      jsSpliceRemoveOne (dp.meals.get m)
        (jsFindIndex (fun meal => meal.id == recipeId) (dp.meals.get m)) := by
  simp [deleteFromDayPlan, Meals.get_set_self]

theorem deleteFromDayPlan_get_ne (recipeId : ℤ) (m : MealSlot) (dp : DayPlan)
    (m' : MealSlot) (h : m' ≠ m) :
    (deleteFromDayPlan recipeId m dp).meals.get m' = dp.meals.get m' := by
  simp [deleteFromDayPlan, Meals.get_set_ne _ _ _ _ h]

theorem replaceFirstById_singleton {r : Recipe} {recipeId : ℤ} (h : r.id = recipeId)
    (r' : Recipe) : replaceFirstById [r] recipeId r' = [r'] := by
  simp [replaceFirstById, h]

theorem jsSplice_singleton {r : Recipe} {recipeId : ℤ} (h : r.id = recipeId) :
    jsSpliceRemoveOne [r] (jsFindIndex (fun meal => meal.id == recipeId) [r]) = [] := by
  have hfind : jsFindIndex (fun meal => meal.id == recipeId) [r] = 0 := by
    simp [jsFindIndex, List.findIdx?_cons, h]
  rw [hfind]
  simp [jsSpliceRemoveOne, jsSpliceIndex]

theorem writeBack_mealPlan_eq (st : AppState) (recipeId : ℤ) (r' : Recipe)
    (d : ℤ) (m : MealSlot) :
    writeBackRecipe st recipeId r' (.mealPlan d m) =
      { st with mealPlan := updateDayPlan st.mealPlan d (fun dayPlan =>
          { dayPlan with
            meals := dayPlan.meals.set m
              (replaceFirstById (dayPlan.meals.get m) recipeId r') }) } := rfl

theorem deleteRecipeFromMealPlan_slots {st : AppState} (recipeId : ℤ) {d : ℤ} (m : MealSlot)
    {week : WeekPlan} {dp : DayPlan} (hwf : WellFormedPlan st.mealPlan)
    (hwk : lookupA st.mealPlan (getMondayOfTheWeek d) = some week)
    (hdp : lookupA week d = some dp) :
    ∃ st', deleteRecipeFromMealPlan st recipeId d m = some st' ∧
      slotAt st'.mealPlan d m = some (jsSpliceRemoveOne (dp.meals.get m)
        (jsFindIndex (fun meal => meal.id == recipeId) (dp.meals.get m))) ∧
      ∀ d' m', ¬(d' = d ∧ m' = m) → slotAt st'.mealPlan d' m' = slotAt st.mealPlan d' m' := by
  have hday : getDayMealPlan st.mealPlan d = some (getMondayOfTheWeek d, dp) :=
    getDayMealPlan_iff.mpr ⟨rfl, week, hwk, hdp⟩
  have hwf1 : WellFormedPlan (updateDayPlan st.mealPlan d (deleteFromDayPlan recipeId m)) :=
    wellFormedPlan_updateDayPlan hwf d _
  obtain ⟨mp2, hmp2⟩ := updateNutritionForWeek_total
    (updateDayPlan st.mealPlan d (deleteFromDayPlan recipeId m)) (getMondayOfTheWeek d)
    (fun week1 hwk1 => wellFormedPlan_lookup hwf1 hwk1)
  have hslots2 : ∀ d'' m'', slotAt mp2 d'' m'' =
      slotAt (updateDayPlan st.mealPlan d (deleteFromDayPlan recipeId m)) d'' m'' :=
    slotAt_updateNutritionForWeek (fun week1 hwk1 => wellFormedPlan_lookup hwf1 hwk1) hmp2
  refine ⟨{ st with mealPlan := mp2 }, ?_, ?_, ?_⟩
  · unfold deleteRecipeFromMealPlan
    rw [hday]
    simp only [hmp2]
  · show slotAt mp2 d m = _
    rw [hslots2, slotAt_updateDayPlan, if_pos rfl, hday]
    simp only [Option.map]
    rw [deleteFromDayPlan_get_self]
  · intro d' m' hne
    show slotAt mp2 d' m' = _
    rw [hslots2, slotAt_updateDayPlan]
    by_cases hd : d' = d
    · subst hd
      have hm : m' ≠ m := fun he => hne ⟨rfl, he⟩
      rw [if_pos rfl, hday]
      simp only [Option.map]
      rw [deleteFromDayPlan_get_ne _ _ _ _ hm, slotAt_of_lookup hwk hdp]
    · rw [if_neg hd]

/-- The tail of `addRecipeToMealPlan` after the copy (possibly rescaled) has
landed alone in the target slot: the nutrition recompute succeeds and keeps
every slot's recipes, and the closing delete removes the lone copy. -/
theorem addPipeline_tail {st2 : AppState} {recipeId d : ℤ} {m : MealSlot} {rr : Recipe}
    (hwf2 : WellFormedPlan st2.mealPlan)
    (hrr : rr.id = recipeId)
    (hslot2 : slotAt st2.mealPlan d m = some [rr]) :
    ∃ mp3 st', updateNutritionForWeek st2.mealPlan (getMondayOfTheWeek d) = some mp3 ∧
      deleteRecipeFromMealPlan { st2 with mealPlan := mp3 } recipeId d m = some st' ∧
      slotAt st'.mealPlan d m = some [] ∧
      ∀ d' m', ¬(d' = d ∧ m' = m) → slotAt st'.mealPlan d' m' = slotAt st2.mealPlan d' m' := by
  obtain ⟨mp3, hmp3⟩ := updateNutritionForWeek_total st2.mealPlan (getMondayOfTheWeek d)
    (fun week1 hwk1 => wellFormedPlan_lookup hwf2 hwk1)
  have hslots3 : ∀ d'' m'', slotAt mp3 d'' m'' = slotAt st2.mealPlan d'' m'' :=
    slotAt_updateNutritionForWeek (fun week1 hwk1 => wellFormedPlan_lookup hwf2 hwk1) hmp3
  have hwf3 : WellFormedPlan mp3 := wellFormedPlan_updateNutritionForWeek hwf2 hmp3
  have hslot3 : slotAt mp3 d m = some [rr] := by rw [hslots3]; exact hslot2
  obtain ⟨week3, dp3, hwk3, hdp3, hmeals3⟩ := slotAt_resident hslot3
  obtain ⟨st', hrun, hself, hframe⟩ :=
    @deleteRecipeFromMealPlan_slots { st2 with mealPlan := mp3 } recipeId d m week3 dp3
      hwf3 hwk3 hdp3
  refine ⟨mp3, st', hmp3, hrun, ?_, ?_⟩
  · rw [hself, hmeals3, jsSplice_singleton hrr]
  · intro d' m' hne
    rw [hframe d' m' hne]
    exact hslots3 d' m'

/-- Running `addRecipeToMealPlan` stage by stage: resolve the day and the
source recipe, mutate the target day, let the servings-adjustment stage
produce `st2`, recompute the week's nutrition, and (for a meal-plan source)
finish with the delete of the original instance. -/
theorem addRecipeToMealPlan_run {st st2 : AppState} {recipeId : ℤ} {userInputs : UserInputs}
    {d wk : ℤ} {m : MealSlot} {dp : DayPlan} {recipe : Recipe} {mp3 : MealPlan}
    (hday : getDayMealPlan st.mealPlan userInputs.date = some (wk, dp))
    (hfound : getRecipe st recipeId (.mealPlan d m) = some recipe)
    (hst2 : (if (recipe.origin == "customMealEntry") = true
        then some { st with mealPlan := updateDayPlan st.mealPlan userInputs.date (addToDayPlan recipe userInputs.meal userInputs.operation) }
        else adjustServings
          { st with mealPlan := updateDayPlan st.mealPlan userInputs.date (addToDayPlan recipe userInputs.meal userInputs.operation) }
          recipe.id none (.mealPlan userInputs.date userInputs.meal)
          userInputs.numServings) = some st2)
    (hmp3 : updateNutritionForWeek st2.mealPlan wk = some mp3) :
    addRecipeToMealPlan st recipeId userInputs (.mealPlan d m) =
      deleteRecipeFromMealPlan { st2 with mealPlan := mp3 } recipeId d m := by
  unfold addRecipeToMealPlan
  rw [hday]
  simp only [hfound, deepCopy]
  rw [hst2]
  simp only [hmp3]

/-! ## Claim C10: moving a recipe onto its own slot with "replace" -/

/-- Claim C10: moving a scheduled recipe onto its own slot (source is the
meal plan at the same date and meal) with operation `"replace"` leaves that
slot empty and the recipe id absent from every slot of the whole (resident)
meal plan: the slot is first cleared, the copy is pushed, the servings
adjustment (skipped for a custom meal entry, and a silent no-op when the
computed servings are out of range) can only rewrite that lone copy in
place, and the closing delete step removes the first id match — the copy
itself.  Hypotheses: the day is resident, the slot holds a recipe with the
requested id, the copy survives the adjustment stage (a custom entry or an
actual ingredient array), and the id is scheduled nowhere else. -/
theorem C10_move_replace_same_slot {st : AppState} {recipeId d : ℤ} {m : MealSlot}
    {week : WeekPlan} {dp : DayPlan} {recipe : Recipe} {userInputs : UserInputs}
    (hwf : WellFormedPlan st.mealPlan)
    (hwk : lookupA st.mealPlan (getMondayOfTheWeek d) = some week)
    (hdp : lookupA week d = some dp)
    (hfind : (dp.meals.get m).find? (fun meal => meal.id == recipeId) = some recipe)
    (hdate : userInputs.date = d) (hmeal : userInputs.meal = m)
    (hop : userInputs.operation = "replace")
    (hadj : recipe.origin = "customMealEntry" ∨ recipe.ingredients ≠ none)
    (honly : ∀ we ∈ st.mealPlan, ∀ de ∈ we.2, ∀ m' ∈ mealSlots,
      ¬(de.1 = d ∧ m' = m) → ∀ r ∈ de.2.meals.get m', r.id ≠ recipeId) :
    ∃ st', addRecipeToMealPlan st recipeId userInputs (.mealPlan d m) = some st' ∧
      slotAt st'.mealPlan d m = some [] ∧
      ∀ d' m' l, slotAt st'.mealPlan d' m' = some l → ∀ r ∈ l, r.id ≠ recipeId := by
  obtain ⟨ud, um, uop, uns⟩ := userInputs
  obtain rfl : d = ud := hdate.symm
  obtain rfl : m = um := hmeal.symm
  obtain rfl : "replace" = uop := hop.symm
  have hday : getDayMealPlan st.mealPlan d = some (getMondayOfTheWeek d, dp) :=
    getDayMealPlan_iff.mpr ⟨rfl, week, hwk, hdp⟩
  have hfound : getRecipe st recipeId (.mealPlan d m) = some recipe := by
    simp only [getRecipe, getRecipeFromMealPlan, hday]
    exact hfind
  have hid : recipe.id = recipeId := getRecipe_id hfound
  have hwf1 : WellFormedPlan (updateDayPlan st.mealPlan d (addToDayPlan recipe m "replace")) :=
    wellFormedPlan_updateDayPlan hwf d _
  have hslot1self :
      slotAt (updateDayPlan st.mealPlan d (addToDayPlan recipe m "replace")) d m =
        some [recipe] := by
    rw [slotAt_updateDayPlan, if_pos rfl, hday]
    simp only [Option.map]
    rw [addToDayPlan_replace_get_self]
  have hslot1 : ∀ d' m', ¬(d' = d ∧ m' = m) →
      slotAt (updateDayPlan st.mealPlan d (addToDayPlan recipe m "replace")) d' m' =
        slotAt st.mealPlan d' m' := by
    intro d' m' hne
    rw [slotAt_updateDayPlan]
    by_cases hd : d' = d
    · subst hd
      have hm : m' ≠ m := fun he => hne ⟨rfl, he⟩
      rw [if_pos rfl, hday]
      simp only [Option.map]
      rw [addToDayPlan_replace_get_ne _ _ _ _ hm, slotAt_of_lookup hwk hdp]
    · rw [if_neg hd]
  have hday1 : getDayMealPlan (updateDayPlan st.mealPlan d (addToDayPlan recipe m "replace")) d =
      some (getMondayOfTheWeek d, addToDayPlan recipe m "replace" dp) := by
    rw [getDayMealPlan_updateDayPlan, if_pos rfl, hday]
    rfl
  have hfound1 : getRecipe
      { st with mealPlan := updateDayPlan st.mealPlan d (addToDayPlan recipe m "replace") }
      recipeId (.mealPlan d m) = some recipe := by
    simp only [getRecipe, getRecipeFromMealPlan, hday1]
    rw [addToDayPlan_replace_get_self]
    simp [List.find?, hid]
  have hfound1' : getRecipe
      { st with mealPlan := updateDayPlan st.mealPlan d (addToDayPlan recipe m "replace") }
      recipe.id (.mealPlan d m) = some recipe := by
    rw [hid]
    exact hfound1
  have main : ∃ st', addRecipeToMealPlan st recipeId ⟨d, m, "replace", uns⟩
        (.mealPlan d m) = some st' ∧
      slotAt st'.mealPlan d m = some [] ∧
      ∀ d' m', ¬(d' = d ∧ m' = m) → slotAt st'.mealPlan d' m' = slotAt st.mealPlan d' m' := by
    by_cases horigin : recipe.origin = "customMealEntry"
    · have hst2 : (if (recipe.origin == "customMealEntry") = true
          then some { st with mealPlan := updateDayPlan st.mealPlan d (addToDayPlan recipe m "replace") }
          else adjustServings
            { st with mealPlan := updateDayPlan st.mealPlan d (addToDayPlan recipe m "replace") }
            recipe.id none (.mealPlan d m) uns) =
          some { st with mealPlan := updateDayPlan st.mealPlan d (addToDayPlan recipe m "replace") } := by
        rw [if_pos (by simp [horigin])]
      obtain ⟨mp3, st', hmp3, hdel, hempty, hframe⟩ :=
        @addPipeline_tail
          { st with mealPlan := updateDayPlan st.mealPlan d (addToDayPlan recipe m "replace") }
          recipeId d m recipe hwf1 hid hslot1self
      refine ⟨st', ?_, hempty, ?_⟩
      · rw [addRecipeToMealPlan_run hday hfound hst2 hmp3]
        exact hdel
      · intro d' m' hne
        rw [hframe d' m' hne]
        exact hslot1 d' m' hne
    · have hing0 : recipe.ingredients ≠ none := by
        rcases hadj with h | h
        · exact absurd h horigin
        · exact h
      cases hing : recipe.ingredients with
      | none => exact absurd hing hing0
      | some ings =>
      cases hval : isValidServings (calculateUpdatedServings recipe.servings none uns) with
      | false =>
        have hst2 : (if (recipe.origin == "customMealEntry") = true
            then some { st with mealPlan := updateDayPlan st.mealPlan d (addToDayPlan recipe m "replace") }
            else adjustServings
              { st with mealPlan := updateDayPlan st.mealPlan d (addToDayPlan recipe m "replace") }
              recipe.id none (.mealPlan d m) uns) =
            some { st with mealPlan := updateDayPlan st.mealPlan d (addToDayPlan recipe m "replace") } := by
          rw [if_neg (by simp [horigin])]
          exact adjustServings_invalid hfound1' hval
        obtain ⟨mp3, st', hmp3, hdel, hempty, hframe⟩ :=
        @addPipeline_tail
          { st with mealPlan := updateDayPlan st.mealPlan d (addToDayPlan recipe m "replace") }
          recipeId d m recipe hwf1 hid hslot1self
        refine ⟨st', ?_, hempty, ?_⟩
        · rw [addRecipeToMealPlan_run hday hfound hst2 hmp3]
          exact hdel
        · intro d' m' hne
          rw [hframe d' m' hne]
          exact hslot1 d' m' hne
      | true =>
        have hst2 : (if (recipe.origin == "customMealEntry") = true
            then some { st with mealPlan := updateDayPlan st.mealPlan d (addToDayPlan recipe m "replace") }
            else adjustServings
              { st with mealPlan := updateDayPlan st.mealPlan d (addToDayPlan recipe m "replace") }
              recipe.id none (.mealPlan d m) uns) =
            some (writeBackRecipe
              { st with mealPlan := updateDayPlan st.mealPlan d (addToDayPlan recipe m "replace") }
              recipe.id
              (adjustedRecipe recipe ings (calculateUpdatedServings recipe.servings none uns))
              (.mealPlan d m)) := by
          rw [if_neg (by simp [horigin])]
          exact adjustServings_valid_mealPlan hfound1' hing hval
        have hrr : (adjustedRecipe recipe ings
            (calculateUpdatedServings recipe.servings none uns)).id = recipeId := by
          rw [adjustedRecipe_id, hid]
        have hwf2 : WellFormedPlan (writeBackRecipe
            { st with mealPlan := updateDayPlan st.mealPlan d (addToDayPlan recipe m "replace") }
            recipe.id
            (adjustedRecipe recipe ings (calculateUpdatedServings recipe.servings none uns))
            (.mealPlan d m)).mealPlan := by
          rw [writeBack_mealPlan_eq]
          exact wellFormedPlan_updateDayPlan hwf1 d _
        have hslot2self : slotAt (writeBackRecipe
            { st with mealPlan := updateDayPlan st.mealPlan d (addToDayPlan recipe m "replace") }
            recipe.id
            (adjustedRecipe recipe ings (calculateUpdatedServings recipe.servings none uns))
            (.mealPlan d m)).mealPlan d m =
            some [adjustedRecipe recipe ings
              (calculateUpdatedServings recipe.servings none uns)] := by
          rw [writeBack_mealPlan_eq]
          show slotAt (updateDayPlan _ d _) d m = _
          rw [slotAt_updateDayPlan, if_pos rfl, hday1]
          simp only [Option.map]
          rw [Meals.get_set_self, addToDayPlan_replace_get_self,
            replaceFirstById_singleton rfl]
        have hslot2 : ∀ d' m', ¬(d' = d ∧ m' = m) →
            slotAt (writeBackRecipe
              { st with mealPlan := updateDayPlan st.mealPlan d (addToDayPlan recipe m "replace") }
              recipe.id
              (adjustedRecipe recipe ings (calculateUpdatedServings recipe.servings none uns))
              (.mealPlan d m)).mealPlan d' m' = slotAt st.mealPlan d' m' := by
          intro d' m' hne
          rw [writeBack_mealPlan_eq]
          show slotAt (updateDayPlan _ d _) d' m' = _
          rw [slotAt_updateDayPlan]
          by_cases hd : d' = d
          · subst hd
            have hm : m' ≠ m := fun he => hne ⟨rfl, he⟩
            rw [if_pos rfl, hday1]
            simp only [Option.map]
            rw [Meals.get_set_ne _ _ _ _ hm, addToDayPlan_replace_get_ne _ _ _ _ hm,
              slotAt_of_lookup hwk hdp]
          · rw [if_neg hd]
            exact hslot1 d' m' hne
        obtain ⟨mp3, st', hmp3, hdel, hempty, hframe⟩ := addPipeline_tail hwf2 hrr hslot2self
        refine ⟨st', ?_, hempty, ?_⟩
        · rw [addRecipeToMealPlan_run hday hfound hst2 hmp3]
          exact hdel
        · intro d' m' hne
          rw [hframe d' m' hne]
          exact hslot2 d' m' hne
  obtain ⟨st', hrun, hempty, hframe⟩ := main
  refine ⟨st', hrun, hempty, ?_⟩
  intro d' m' l hl r hr
  by_cases hdm : d' = d ∧ m' = m
  · obtain ⟨rfl, rfl⟩ := hdm
    rw [hempty] at hl
    obtain rfl : ([] : List Recipe) = l := Option.some.inj hl
    simp at hr
  · rw [hframe d' m' hdm] at hl
    obtain ⟨week', dp', hwk', hdp', hmeals'⟩ := slotAt_resident hl
    exact honly _ (lookupA_mem hwk') _ (lookupA_mem hdp') m' (mem_mealSlots m')
      hdm r (by rw [hmeals']; exact hr)

/-- Claim C10 witness: day 4's two-recipe breakfast, moving the id-1 recipe
onto the same breakfast slot with `"replace"` — the slot ends empty and id 1
is scheduled nowhere. -/
theorem C10_move_replace_same_slot_witness :
    ∃ st', addRecipeToMealPlan (sampleState c9DayPlan) 1
        { date := 4, meal := .breakfast, operation := "replace",
          numServings := some (some 3) }
        (.mealPlan 4 .breakfast) = some st' ∧
      slotAt st'.mealPlan 4 .breakfast = some [] ∧
      ∀ d' m' l, slotAt st'.mealPlan d' m' = some l → ∀ r ∈ l, r.id ≠ 1 :=
  @C10_move_replace_same_slot (sampleState c9DayPlan) 1 4 .breakfast
    [(4, c9DayPlan), (5, emptyDayPlan)] c9DayPlan (sampleRecipe 1 2)
    { date := 4, meal := .breakfast, operation := "replace", numServings := some (some 3) }
    (by decide) (by decide) (by decide) (by decide) (by decide) (by decide) (by decide)
    (by decide) (by decide)

/-! ## Inverting the meal-plan mutations -/

theorem adjustServings_mealPlan_wf {st st' : AppState} {recipeId : ℤ}
    {operation : Option String} {d : ℤ} {m : MealSlot} {newServings : Option (Option ℚ)}
    (hwf : WellFormedPlan st.mealPlan)
    (h : adjustServings st recipeId operation (.mealPlan d m) newServings = some st') :
    WellFormedPlan st'.mealPlan := by
  cases hfound : getRecipe st recipeId (.mealPlan d m) with
  | none => unfold adjustServings at h; rw [hfound] at h; exact absurd h (by simp)
  | some recipe =>
    cases hval : isValidServings (calculateUpdatedServings recipe.servings operation newServings) with
    | false =>
      rw [adjustServings_invalid hfound hval] at h
      obtain rfl := Option.some.inj h
      exact hwf
    | true =>
      cases hing : recipe.ingredients with
      | none => rw [adjustServings_ing_none hfound hval hing] at h; exact absurd h (by simp)
      | some ings =>
        rw [adjustServings_valid_mealPlan hfound hing hval] at h
        obtain rfl := (Option.some.inj h).symm
        exact wellFormedPlan_updateDayPlan hwf d _

theorem deleteRecipeFromMealPlan_inv {st st' : AppState} {recipeId d : ℤ} {m : MealSlot}
    (hwf : WellFormedPlan st.mealPlan)
    (h : deleteRecipeFromMealPlan st recipeId d m = some st') :
    WellFormedPlan st'.mealPlan ∧
    (∀ w', w' ≠ getMondayOfTheWeek d → lookupA st'.mealPlan w' = lookupA st.mealPlan w') ∧
    ∀ week' d' dp', lookupA st'.mealPlan (getMondayOfTheWeek d) = some week' →
      lookupA week' d' = some dp' →
      dp'.nutrition = dp'.meals.all.foldl addRecipeNutrition zeroNutrition := by
  unfold deleteRecipeFromMealPlan at h
  cases hday : getDayMealPlan st.mealPlan d with
  | none => rw [hday] at h; exact absurd h (by simp)
  | some pair =>
  obtain ⟨wk, dp0⟩ := pair
  obtain ⟨hw, week0, hwk0, hdp0⟩ := getDayMealPlan_iff.mp hday
  subst hw
  rw [hday] at h
  simp only [] at h
  have hwf1 : WellFormedPlan (updateDayPlan st.mealPlan d (deleteFromDayPlan recipeId m)) :=
    wellFormedPlan_updateDayPlan hwf d _
  cases hmp2 : updateNutritionForWeek
      (updateDayPlan st.mealPlan d (deleteFromDayPlan recipeId m)) (getMondayOfTheWeek d) with
  | none => rw [hmp2] at h; exact absurd h (by simp)
  | some mp2 =>
  rw [hmp2] at h
  obtain rfl : ({ st with mealPlan := mp2 } : AppState) = st' := Option.some.inj h
  refine ⟨wellFormedPlan_updateNutritionForWeek hwf1 hmp2, ?_, ?_⟩
  · intro w' hw'
    have hframe := (updateNutritionForWeek_spec
      (fun week1 hwk1 => wellFormedPlan_lookup hwf1 hwk1) hmp2).1 w' hw'
    show lookupA mp2 w' = _
    rw [hframe]
    show lookupA (setA st.mealPlan (getMondayOfTheWeek d) _) w' = _
    rw [lookupA_setA, if_neg hw']
  · intro week' d' dp' hwk' hdp'
    exact (updateNutritionForWeek_day
      (fun week1 hwk1 => wellFormedPlan_lookup hwf1 hwk1) hmp2 hwk' hdp').1

theorem createCustomMealEntry_inv {st st' : AppState} {inputs : CustomEntryInputs}
    {freshId : ℤ} (hwf : WellFormedPlan st.mealPlan)
    (h : createCustomMealEntry st inputs freshId = some st') :
    ∀ week' d' dp', lookupA st'.mealPlan (getMondayOfTheWeek inputs.date) = some week' →
      lookupA week' d' = some dp' →
      dp'.nutrition = dp'.meals.all.foldl addRecipeNutrition zeroNutrition := by
  unfold createCustomMealEntry at h
  cases hday : getDayMealPlan st.mealPlan inputs.date with
  | none => rw [hday] at h; exact absurd h (by simp)
  | some pair =>
  obtain ⟨wk, dp0⟩ := pair
  obtain ⟨hw, week0, hwk0, hdp0⟩ := getDayMealPlan_iff.mp hday
  subst hw
  rw [hday] at h
  simp only [] at h
  have hwf1 : WellFormedPlan (updateDayPlan st.mealPlan inputs.date (fun dayPlan =>
      { dayPlan with
        meals := dayPlan.meals.set inputs.meal
          (dayPlan.meals.get inputs.meal ++ [createCustomRecipeObject inputs freshId]) })) :=
    wellFormedPlan_updateDayPlan hwf _ _
  cases hmp2 : updateNutritionForWeek (updateDayPlan st.mealPlan inputs.date (fun dayPlan =>
      { dayPlan with
        meals := dayPlan.meals.set inputs.meal
          (dayPlan.meals.get inputs.meal ++ [createCustomRecipeObject inputs freshId]) }))
      (getMondayOfTheWeek inputs.date) with
  | none => rw [hmp2] at h; exact absurd h (by simp)
  | some mp2 =>
  rw [hmp2] at h
  obtain rfl : ({ st with mealPlan := mp2 } : AppState) = st' := Option.some.inj h
  intro week' d' dp' hwk' hdp'
  exact (updateNutritionForWeek_day
    (fun week1 hwk1 => wellFormedPlan_lookup hwf1 hwk1) hmp2 hwk' hdp').1

theorem addRecipeToMealPlan_inv {st st' : AppState} {recipeId : ℤ} {userInputs : UserInputs}
    {options : Source}
    (hwf : WellFormedPlan st.mealPlan)
    (h : addRecipeToMealPlan st recipeId userInputs options = some st') :
    ∀ w ∈ mutationWeeks (.addRecipe recipeId userInputs options),
      ∀ week' d' dp', lookupA st'.mealPlan w = some week' →
        lookupA week' d' = some dp' →
        dp'.nutrition = dp'.meals.all.foldl addRecipeNutrition zeroNutrition := by
  unfold addRecipeToMealPlan at h
  cases hday : getDayMealPlan st.mealPlan userInputs.date with
  | none => rw [hday] at h; exact absurd h (by simp)
  | some pair =>
  obtain ⟨wk, dp0⟩ := pair
  obtain ⟨hw, week0, hwk0, hdp0⟩ := getDayMealPlan_iff.mp hday
  subst hw
  rw [hday] at h
  simp only [] at h
  cases hfound : getRecipe st recipeId options with
  | none => rw [hfound] at h; exact absurd h (by simp)
  | some recipe =>
  rw [hfound] at h
  simp only [deepCopy] at h
  cases hstage : (if (recipe.origin == "customMealEntry") = true
      then some { st with mealPlan := updateDayPlan st.mealPlan userInputs.date (addToDayPlan recipe userInputs.meal userInputs.operation) }
      else adjustServings { st with mealPlan := updateDayPlan st.mealPlan userInputs.date (addToDayPlan recipe userInputs.meal userInputs.operation) } recipe.id none (.mealPlan userInputs.date userInputs.meal) userInputs.numServings) with
  | none => rw [hstage] at h; exact absurd h (by simp)
  | some st2 =>
  rw [hstage] at h
  simp only [] at h
  have hwf1 : WellFormedPlan (updateDayPlan st.mealPlan userInputs.date
      (addToDayPlan recipe userInputs.meal userInputs.operation)) :=
    wellFormedPlan_updateDayPlan hwf _ _
  have hwf2 : WellFormedPlan st2.mealPlan := by
    by_cases horg : (recipe.origin == "customMealEntry") = true
    · rw [if_pos horg] at hstage
      obtain rfl := (Option.some.inj hstage).symm
      exact hwf1
    · rw [if_neg horg] at hstage
      exact adjustServings_mealPlan_wf hwf1 hstage
  cases hmp3 : updateNutritionForWeek st2.mealPlan (getMondayOfTheWeek userInputs.date) with
  | none => rw [hmp3] at h; exact absurd h (by simp)
  | some mp3 =>
  rw [hmp3] at h
  simp only [] at h
  have hday3 : ∀ week' d' dp', lookupA mp3 (getMondayOfTheWeek userInputs.date) = some week' →
      lookupA week' d' = some dp' →
      dp'.nutrition = dp'.meals.all.foldl addRecipeNutrition zeroNutrition := by
    intro week' d' dp' hwk' hdp'
    exact (updateNutritionForWeek_day
      (fun week1 hwk1 => wellFormedPlan_lookup hwf2 hwk1) hmp3 hwk' hdp').1
  have hwf3 : WellFormedPlan mp3 := wellFormedPlan_updateNutritionForWeek hwf2 hmp3
  cases options with
  | mealPlan cd cm =>
    obtain ⟨hwfD, hframeD, hrecompD⟩ := deleteRecipeFromMealPlan_inv hwf3 h
    intro w hw week' d' dp' hwk' hdp'
    simp only [mutationWeeks, List.mem_cons, List.mem_singleton, List.not_mem_nil,
      or_false] at hw
    rcases hw with rfl | rfl
    · by_cases hcw : getMondayOfTheWeek cd = getMondayOfTheWeek userInputs.date
      · rw [← hcw] at hwk'
        exact hrecompD week' d' dp' hwk' hdp'
      · rw [hframeD _ (fun he => hcw he.symm)] at hwk'
        exact hday3 week' d' dp' hwk' hdp'
    · exact hrecompD week' d' dp' hwk' hdp'
  | ingredientSearch =>
    obtain rfl := (Option.some.inj h).symm
    intro w hw
    simp only [mutationWeeks, List.mem_singleton] at hw
    subst hw
    exact hday3
  | browseRecipeSearch =>
    obtain rfl := (Option.some.inj h).symm
    intro w hw
    simp only [mutationWeeks, List.mem_singleton] at hw
    subst hw
    exact hday3
  | recipeBook =>
    obtain rfl := (Option.some.inj h).symm
    intro w hw
    simp only [mutationWeeks, List.mem_singleton] at hw
    subst hw
    exact hday3

/-! ## Claim C1: day totals after every meal-plan mutation -/

/-- Claim C1: after any successful meal-plan mutation (adding a recipe —
plain, replace or move —, deleting a recipe, or adding a custom meal entry),
every resident day of every affected week — the target day's week, and for a
move out of the meal plan also the source day's week, which the closing
delete recomputes — carries as its nutrition object exactly the fold that
zeroes the totals and then adds every scheduled recipe's
calories/protein/carbs/fats; when all those summands are finite numbers,
each total is literally the arithmetic sum. -/
theorem C1_nutrition_after_mutation {st st' : AppState} {mu : PlanMutation}
    (hwf : WellFormedPlan st.mealPlan)
    (hrun : applyMutation st mu = some st')
    {w : ℤ} {week' : WeekPlan} {d' : ℤ} {dp' : DayPlan}
    (hw : w ∈ mutationWeeks mu)
    (hwk' : lookupA st'.mealPlan w = some week')
    (hdp' : lookupA week' d' = some dp') :
    dp'.nutrition = dp'.meals.all.foldl addRecipeNutrition zeroNutrition ∧
    ((∀ r ∈ dp'.meals.all, r.calories.isSome ∧ r.protein.isSome ∧ r.carbs.isSome ∧ r.fats.isSome) →
      dp'.nutrition.calories = some ((dp'.meals.all.map (fun r => r.calories.getD 0)).sum) ∧
      dp'.nutrition.protein = some ((dp'.meals.all.map (fun r => r.protein.getD 0)).sum) ∧
      dp'.nutrition.carbs = some ((dp'.meals.all.map (fun r => r.carbs.getD 0)).sum) ∧
      dp'.nutrition.fats = some ((dp'.meals.all.map (fun r => r.fats.getD 0)).sum)) := by
  have hreset : dp'.nutrition = dp'.meals.all.foldl addRecipeNutrition zeroNutrition := by
    cases mu with
    | addRecipe recipeId userInputs options =>
      simp only [applyMutation] at hrun
      exact addRecipeToMealPlan_inv hwf hrun w hw week' d' dp' hwk' hdp'
    | deleteRecipe recipeId dayDateString mealTime =>
      simp only [applyMutation] at hrun
      simp only [mutationWeeks, List.mem_singleton] at hw
      subst hw
      exact (deleteRecipeFromMealPlan_inv hwf hrun).2.2 week' d' dp' hwk' hdp'
    | customEntry inputs freshId =>
      simp only [applyMutation] at hrun
      simp only [mutationWeeks, List.mem_singleton] at hw
      subst hw
      exact createCustomMealEntry_inv hwf hrun week' d' dp' hwk' hdp'
  refine ⟨hreset, fun hnum => ?_⟩
  rw [hreset]
  have hz : zeroNutrition = ⟨some 0, some 0, some 0, some 0⟩ := rfl
  rw [hz, foldl_addRecipeNutrition _ 0 0 0 0 hnum]
  simp

/-- Claim C1 witness: adding a 300-calorie custom meal entry to day 4's
breakfast leaves day 4 carrying totals equal to the (singleton) sums. -/
theorem C1_nutrition_after_mutation_witness :
    c1Day.nutrition = c1Day.meals.all.foldl addRecipeNutrition zeroNutrition ∧
    ((∀ r ∈ c1Day.meals.all, r.calories.isSome ∧ r.protein.isSome ∧ r.carbs.isSome ∧ r.fats.isSome) →
      c1Day.nutrition.calories = some ((c1Day.meals.all.map (fun r => r.calories.getD 0)).sum) ∧
      c1Day.nutrition.protein = some ((c1Day.meals.all.map (fun r => r.protein.getD 0)).sum) ∧
      c1Day.nutrition.carbs = some ((c1Day.meals.all.map (fun r => r.carbs.getD 0)).sum) ∧
      c1Day.nutrition.fats = some ((c1Day.meals.all.map (fun r => r.fats.getD 0)).sum)) :=
  @C1_nutrition_after_mutation (sampleState emptyDayPlan) c1State (.customEntry c1Inputs 99)
    (by decide) (by decide) 4 [(4, c1Day), (5, emptyDayPlan)] 4 c1Day
    (by decide) (by decide) (by decide)

/-! ## Splicing out the first match -/

theorem jsSpliceRemoveOne_cons_succ {α : Type} (x : α) (xs : List α) (n : ℕ) :
    jsSpliceRemoveOne (x :: xs) ((n : ℤ) + 1) = x :: jsSpliceRemoveOne xs (n : ℤ) := by
  have h1 : ¬ ((n : ℤ) + 1 < 0) := by omega
  have h2 : ¬ ((n : ℤ) < 0) := by omega
  simp only [jsSpliceRemoveOne, jsSpliceIndex, if_neg h1, if_neg h2]
  have h3 : ((n : ℤ) + 1).toNat = n + 1 := by omega
  have h4 : ((n : ℤ)).toNat = n := by omega
  rw [h3, h4]
  simp [List.length_cons, Nat.succ_min_succ]

theorem jsSpliceRemoveOne_zero_cons {α : Type} (x : α) (xs : List α) :
    jsSpliceRemoveOne (x :: xs) 0 = xs := by
  simp [jsSpliceRemoveOne, jsSpliceIndex]

/-- When a list holds at most one match, `splice(findIndex(p), 1)` leaves no
match behind (absent match: the spliced-out last element was no match
either). -/
theorem splice_first_match_no_match {α : Type} (p : α → Bool) :
    ∀ l : List α, l.countP p ≤ 1 →
    ∀ q ∈ jsSpliceRemoveOne l (jsFindIndex p l), p q = false := by
  intro l
  induction l with
  | nil =>
    intro _ q hq
    simp [jsSpliceRemoveOne, jsSpliceIndex, jsFindIndex, List.findIdx?] at hq
  | cons x xs ih =>
    intro hcount q hq
    cases hpx : p x with
    | true =>
      have hfind : jsFindIndex p (x :: xs) = 0 := by
        simp [jsFindIndex, List.findIdx?_cons, hpx]
      rw [hfind, jsSpliceRemoveOne_zero_cons] at hq
      have hxs : xs.countP p = 0 := by
        rw [List.countP_cons] at hcount
        simp only [hpx, if_pos] at hcount
        omega
      have := List.countP_eq_zero.mp hxs q hq
      simpa using this
    | false =>
      cases hfind0 : xs.findIdx? p with
      | none =>
        have hf : jsFindIndex p (x :: xs) = -1 := by
          apply jsFindIndex_eq_neg_one
          intro y hy
          rcases List.mem_cons.mp hy with rfl | hy'
          · exact hpx
          · have := List.findIdx?_eq_none_iff.mp hfind0 y hy'
            simpa using this
        rw [hf, jsSpliceRemoveOne_neg_one] at hq
        have hq' : q ∈ x :: xs := List.dropLast_subset _ hq
        rcases List.mem_cons.mp hq' with rfl | hy'
        · exact hpx
        · have := List.findIdx?_eq_none_iff.mp hfind0 q hy'
          simpa using this
      | some i =>
        have hf : jsFindIndex p (x :: xs) = (i : ℤ) + 1 := by
          simp [jsFindIndex, List.findIdx?_cons, hpx, hfind0]
        rw [hf, jsSpliceRemoveOne_cons_succ] at hq
        rcases List.mem_cons.mp hq with rfl | hy'
        · exact hpx
        · have hxs : xs.countP p ≤ 1 := by
            rw [List.countP_cons] at hcount
            omega
          have hfi : jsFindIndex p xs = (i : ℤ) := by simp [jsFindIndex, hfind0]
          rw [← hfi] at hy'
          exact ih hxs q hy'

theorem countP_replaceFirstById {recipeId : ℤ} {r' : Recipe} (hid : r'.id = recipeId) :
    ∀ l : List Recipe, (replaceFirstById l recipeId r').countP (fun r => r.id == recipeId) =
      l.countP (fun r => r.id == recipeId) := by
  intro l
  induction l with
  | nil => rfl
  | cons x rest ih =>
    by_cases hx : x.id = recipeId
    · simp [replaceFirstById, hx, List.countP_cons, hid]
    · have hbeq : (x.id == recipeId) = false := by simpa using hx
      simp [replaceFirstById, hbeq, List.countP_cons, ih]

/-! ## Bookmark broadcast lemmas -/

theorem Meals.all_mapRecipes (m : Meals) (f : Recipe → Recipe) :
    (m.mapRecipes f).all = m.all.map f := by
  simp [Meals.all, Meals.mapRecipes]

theorem mem_map_flag {l : List Recipe} {recipeId : ℤ} {b : Bool} {q : Recipe}
    (hq : q ∈ l.map (fun recipe =>
      if recipe.id == recipeId then { recipe with isBookmarked := b } else recipe))
    (hid : q.id = recipeId) : q.isBookmarked = b := by
  obtain ⟨q0, _, hq0⟩ := List.mem_map.mp hq
  by_cases h0 : q0.id = recipeId
  · rw [if_pos (by simpa using h0)] at hq0
    rw [← hq0]
  · rw [if_neg (by simpa using h0)] at hq0
    rw [← hq0] at hid
    exact absurd hid h0

theorem sync_mealPlan_flag {mp : MealPlan} {recipeId : ℤ} {b : Bool} {q : Recipe}
    (h : ∃ we ∈ syncMealPlannerBookmarkStatus mp recipeId b, ∃ de ∈ we.2,
      q ∈ de.2.meals.all)
    (hid : q.id = recipeId) : q.isBookmarked = b := by
  obtain ⟨we, hwe, de, hde, hq⟩ := h
  unfold syncMealPlannerBookmarkStatus at hwe
  obtain ⟨we0, hwe0, rfl⟩ := List.mem_map.mp hwe
  obtain ⟨de0, hde0, rfl⟩ := List.mem_map.mp hde
  rw [Meals.all_mapRecipes] at hq
  exact mem_map_flag hq hid

theorem updateBookmarkStatus_book {st stU : AppState} {recipeId : ℤ} {b : Bool}
    {options : Source}
    (h : updateBookmarkStatus st recipeId b options = some stU) :
    stU.recipeBook.countP (fun r => r.id == recipeId) =
      st.recipeBook.countP (fun r => r.id == recipeId) := by
  cases options with
  | mealPlan cd cm =>
    unfold updateBookmarkStatus at h
    simp only [] at h
    cases hg : getDayMealPlan st.mealPlan cd with
    | none => rw [hg] at h; exact absurd h (by simp)
    | some pair =>
      rw [hg] at h
      obtain rfl := (Option.some.inj h).symm
      rfl
  | ingredientSearch =>
    unfold updateBookmarkStatus at h
    simp only [] at h
    cases hg : getRecipeFromBrowse st recipeId .ingredientSearch with
    | none => rw [hg] at h; exact absurd h (by simp)
    | some recipe =>
      rw [hg] at h
      obtain rfl := (Option.some.inj h).symm
      rfl
  | browseRecipeSearch =>
    unfold updateBookmarkStatus at h
    simp only [] at h
    cases hg : getRecipeFromBrowse st recipeId .browseRecipeSearch with
    | none => rw [hg] at h; exact absurd h (by simp)
    | some recipe =>
      rw [hg] at h
      obtain rfl := (Option.some.inj h).symm
      rfl
  | recipeBook =>
    unfold updateBookmarkStatus at h
    simp only [] at h
    cases hg : getRecipeFromBrowse st recipeId .recipeBook with
    | none => rw [hg] at h; exact absurd h (by simp)
    | some recipe =>
      rw [hg] at h
      obtain rfl := (Option.some.inj h).symm
      have hid : recipe.id = recipeId :=
        getRecipe_id (show getRecipe st recipeId .recipeBook = some recipe from hg)
      show (replaceFirstById st.recipeBook recipeId _).countP _ = _
      exact countP_replaceFirstById (by simpa using hid) st.recipeBook

/-! ## Claim C4: bookmark toggling synchronizes every copy -/

/-- Claim C4: a successful bookmark toggle (new flag `b`) leaves every
same-id copy in the ingredient search results, the browse search results,
the recipe book and every meal slot of every resident day carrying exactly
the flag `b` — so any two copies agree; when the new flag is `true` the
toggled entity has been appended to the recipe book (flagged), and when it
is `false` and the book held at most one copy, no copy with that id remains
in the book. -/
theorem C4_bookmark_toggle_sync {st st' : AppState} {recipeId : ℤ} {options : Source}
    {b : Bool}
    (hrun : controlBookmarks st recipeId options = some (b, st')) :
    (∀ q, (q ∈ st'.ingredientSearchResults ∨ q ∈ st'.browseSearchResults ∨
        q ∈ st'.recipeBook ∨ ∃ we ∈ st'.mealPlan, ∃ de ∈ we.2, q ∈ de.2.meals.all) →
      q.id = recipeId → q.isBookmarked = b) ∧
    (b = true → ∃ q ∈ st'.recipeBook, q.id = recipeId ∧ q.isBookmarked = true) ∧
    (b = false → st.recipeBook.countP (fun r => r.id == recipeId) ≤ 1 →
      ∀ q ∈ st'.recipeBook, q.id ≠ recipeId) := by
  unfold controlBookmarks at hrun
  cases htog : toggleBookmarkStatus st recipeId options with
  | none => rw [htog] at hrun; exact absurd hrun (by simp)
  | some pair =>
  obtain ⟨b0, st1⟩ := pair
  rw [htog] at hrun
  simp only [Option.some.injEq, Prod.mk.injEq] at hrun
  obtain ⟨rfl, rfl⟩ := hrun
  unfold toggleBookmarkStatus at htog
  cases hcur : getBookmarkStatus st recipeId options with
  | none => rw [hcur] at htog; exact absurd htog (by simp)
  | some cur =>
  rw [hcur] at htog
  simp only [] at htog
  cases hupd : updateBookmarkStatus st recipeId (!cur) options with
  | none => rw [hupd] at htog; exact absurd htog (by simp)
  | some stU =>
  rw [hupd] at htog
  simp only [] at htog
  have houtcome :
      (b0 = true ∧ ∃ recipe2, getRecipe stU recipeId options = some recipe2 ∧
        recipe2.id = recipeId ∧
        st1 = { stU with recipeBook := stU.recipeBook ++ [deepCopy recipe2] }) ∨
      (b0 = false ∧ st1 = removeRecipeFromBook stU recipeId) := by
    cases hcurval : cur with
    | false =>
      rw [hcurval] at htog
      simp only [Bool.not_false, if_pos rfl] at htog
      cases hadd : addRecipeToRecipeBookById stU recipeId options with
      | none => rw [hadd] at htog; exact absurd htog (by simp)
      | some st2 =>
        rw [hadd] at htog
        have hpair := Option.some.inj htog
        have hb' : true = b0 := congrArg Prod.fst hpair
        have hst' : st2 = st1 := congrArg Prod.snd hpair
        unfold addRecipeToRecipeBookById at hadd
        cases hfound2 : getRecipe stU recipeId options with
        | none => rw [hfound2] at hadd; exact absurd hadd (by simp)
        | some recipe2 =>
          rw [hfound2] at hadd
          refine Or.inl ⟨hb'.symm, recipe2, rfl, getRecipe_id hfound2, ?_⟩
          rw [← hst', ← Option.some.inj hadd]
    | true =>
      rw [hcurval] at htog
      simp only [Bool.not_true, if_neg (by simp : ¬ (false = true))] at htog
      have hpair := Option.some.inj htog
      exact Or.inr ⟨(congrArg Prod.fst hpair).symm, (congrArg Prod.snd hpair).symm⟩
  refine ⟨?_, ?_, ?_⟩
  · intro q hq hid
    rcases hq with hq | hq | hq | hq
    · exact mem_map_flag hq hid
    · exact mem_map_flag hq hid
    · exact mem_map_flag hq hid
    · exact sync_mealPlan_flag hq hid
  · intro hb
    rcases houtcome with ⟨_, recipe2, hfound2, hid2, hst1⟩ | ⟨hbf, _⟩
    · subst hst1
      refine ⟨{ recipe2 with isBookmarked := b0 }, ?_, by simpa using hid2, hb⟩
      show _ ∈ (stU.recipeBook ++ [deepCopy recipe2]).map _
      refine List.mem_map.mpr ⟨recipe2, by simp [deepCopy], ?_⟩
      rw [if_pos (by simpa using hid2)]
    · rw [hb] at hbf
      exact absurd hbf (by simp)
  · intro hb hcount
    rcases houtcome with ⟨hbt, _⟩ | ⟨_, hst1⟩
    · rw [hb] at hbt
      exact absurd hbt (by simp)
    · subst hst1
      intro q hq
      obtain ⟨q0, hq0mem, hq0⟩ := List.mem_map.mp hq
      have hcntU : stU.recipeBook.countP (fun r => r.id == recipeId) ≤ 1 := by
        rw [updateBookmarkStatus_book hupd]
        exact hcount
      have hq0p : (fun r : Recipe => r.id == recipeId) q0 = false :=
        splice_first_match_no_match _ stU.recipeBook hcntU q0 hq0mem
      have hq0id : q0.id ≠ recipeId := by simpa using hq0p
      intro hqid
      apply hq0id
      rw [← hqid]
      by_cases h0 : q0.id = recipeId
      · exact absurd h0 hq0id
      · rw [if_neg (by simpa using h0)] at hq0
        rw [← hq0]

/-- Claim C4 witness: toggling the bookmark on the lone browse result flags
the copy, broadcasts the flag, and appends the entity to the book. -/
theorem C4_bookmark_toggle_sync_witness :
    (∀ q, (q ∈ c4End.ingredientSearchResults ∨ q ∈ c4End.browseSearchResults ∨
        q ∈ c4End.recipeBook ∨ ∃ we ∈ c4End.mealPlan, ∃ de ∈ we.2, q ∈ de.2.meals.all) →
      q.id = 1 → q.isBookmarked = true) ∧
    (true = true → ∃ q ∈ c4End.recipeBook, q.id = 1 ∧ q.isBookmarked = true) ∧
    (true = false → c4Start.recipeBook.countP (fun r => r.id == 1) ≤ 1 →
      ∀ q ∈ c4End.recipeBook, q.id ≠ 1) :=
  @C4_bookmark_toggle_sync c4Start c4End 1 .browseRecipeSearch true (by decide)

/-! ## Running the detail-retrieval loop -/

theorem populateSearchResults_book (st : AppState) (obj : Recipe) (mode : String) :
    (populateSearchResults st obj mode).recipeBook = st.recipeBook ∧
    (populateSearchResults st obj mode).pantry = st.pantry := by
  unfold populateSearchResults
  split <;> exact ⟨rfl, rfl⟩

theorem createRecipeObject_congr {sing : String → String} {st st' : AppState}
    (hbook : st'.recipeBook = st.recipeBook) (hpan : st'.pantry = st.pantry)
    (r : RawRecipe) (mode : String) :
    createRecipeObject sing st' r mode = createRecipeObject sing st r mode := by
  unfold createRecipeObject
  rw [hbook, hpan]

theorem getOrCreateRecipeObject_congr {sing : String → String} {st st' : AppState}
    (hbook : st'.recipeBook = st.recipeBook) (hpan : st'.pantry = st.pantry)
    (r : RawRecipe) (mode : String) :
    getOrCreateRecipeObject sing st' r mode = getOrCreateRecipeObject sing st r mode := by
  unfold getOrCreateRecipeObject
  rw [hbook, hpan, createRecipeObject_congr hbook hpan]

theorem getOrCreateRecipeObject_total {sing : String → String} {st : AppState}
    (hbook : ∀ q ∈ st.recipeBook, q.ingredients ≠ none) (r : RawRecipe) (mode : String) :
    ∃ obj, getOrCreateRecipeObject sing st r mode = some obj := by
  cases hfind : st.recipeBook.find? (fun meal => some meal.id == r.id) with
  | none =>
    refine ⟨createRecipeObject sing st r mode, ?_⟩
    unfold getOrCreateRecipeObject
    rw [hfind]
  | some existing =>
    cases hing : existing.ingredients with
    | none => exact absurd hing (hbook existing (List.mem_of_find?_eq_some hfind))
    | some ings =>
      have hsome : (getOrCreateRecipeObject sing st r mode).isSome = true := by
        unfold getOrCreateRecipeObject
        rw [hfind]
        simp [hing]
      exact Option.isSome_iff_exists.mp hsome

/-- The `validRecipes.forEach` loop, run in full generality: provided every
recipe-book entry carries an actual ingredient array (the book invariant —
a sentinel there throws), every recipe converts via `getOrCreateRecipeObject`
against the *original* state (the loop only ever grows a search-results
array, which the conversion never reads) and the loop's result is the fold
of `populateSearchResults` over the converted objects. -/
theorem loadValidRecipes_run {sing : String → String} {mode : String} :
    ∀ (l : List RawRecipe) (st : AppState),
    (∀ q ∈ st.recipeBook, q.ingredients ≠ none) →
    ∃ objs : List Recipe,
      l.map (fun r => getOrCreateRecipeObject sing st r mode) = objs.map some ∧
      loadValidRecipes sing st l mode =
        some (objs.foldl (fun s obj => populateSearchResults s obj mode) st) := by
  intro l
  induction l with
  | nil =>
    intro st _
    exact ⟨[], rfl, rfl⟩
  | cons r rest ih =>
    intro st hbook
    obtain ⟨obj, hobj⟩ := @getOrCreateRecipeObject_total sing st hbook r mode
    have hbookpan := populateSearchResults_book st obj mode
    obtain ⟨objs, hmap, hrun⟩ := ih (populateSearchResults st obj mode) (by
      rw [hbookpan.1]
      exact hbook)
    have hfun : (fun r' => getOrCreateRecipeObject sing (populateSearchResults st obj mode) r' mode) =
        (fun r' => getOrCreateRecipeObject sing st r' mode) := by
      funext r'
      exact getOrCreateRecipeObject_congr hbookpan.1 hbookpan.2 r' mode
    rw [hfun] at hmap
    refine ⟨obj :: objs, ?_, ?_⟩
    · simp only [List.map_cons, hobj, hmap]
    · show loadValidRecipes sing st (r :: rest) mode = _
      unfold loadValidRecipes
      rw [hobj]
      simp only []
      rw [hrun]
      rfl

/-- In every non-ingredient-search mode the fold appends the converted
objects, in order, to the browse search results and touches nothing else. -/
theorem foldl_populate_browse {mode : String}
    (hmode : (mode == "ingredientSearch") = false) :
    ∀ (objs : List Recipe) (st : AppState),
    objs.foldl (fun s obj => populateSearchResults s obj mode) st =
      { st with browseSearchResults := st.browseSearchResults ++ objs } := by
  intro objs
  induction objs with
  | nil => intro st; simp
  | cons obj rest ih =>
    intro st
    have hpop : populateSearchResults st obj mode =
        { st with
          browseSearchResults := st.browseSearchResults ++ [obj] } := by
      unfold populateSearchResults
      rw [if_neg (by simp [hmode])]
    rw [List.foldl_cons, hpop, ih]
    rw [List.append_assoc]
    rfl

/-- In ingredient-search mode the fold inserts each converted object into
the ingredient search results and re-sorts after every insertion, touching
nothing else. -/
theorem foldl_populate_ingredient {mode : String}
    (hmode : (mode == "ingredientSearch") = true) :
    ∀ (objs : List Recipe) (st : AppState),
    objs.foldl (fun s obj => populateSearchResults s obj mode) st =
      { st with
        ingredientSearchResults :=
          objs.foldl (fun acc obj => sortByNumMissing (acc ++ [obj]))
            st.ingredientSearchResults } := by
  intro objs
  induction objs with
  | nil => intro st; simp
  | cons obj rest ih =>
    intro st
    have hpop : populateSearchResults st obj mode =
        { st with
          ingredientSearchResults := sortByNumMissing (st.ingredientSearchResults ++ [obj]) } := by
      unfold populateSearchResults
      rw [if_pos hmode]
    rw [List.foldl_cons, hpop, ih, List.foldl_cons]

/-! ## Claim C6: which raw recipes are accepted -/

/-- Claim C6, counterexample.  The claim demands at least one instruction
step and at least one ingredient, but the code's truthiness checks only test
the *presence* of the arrays (an empty JS array is truthy): the raw recipe
`c6Raw`, with an empty steps array and an empty ingredient array, is
accepted by `isValidRecipe` although the claim's condition rejects it. -/
theorem C6_acceptance_counterexample :
    isValidRecipe c6Raw = true ∧ specC6Valid c6Raw = false ∧
    c6Raw.extendedIngredients = some [] ∧
    (∃ firstBlock rest, c6Raw.analyzedInstructions = some (firstBlock :: rest) ∧
      firstBlock.steps = some []) :=
  ⟨by decide, by decide, rfl, ⟨{ steps := some [] }, [], rfl, rfl⟩⟩

/-- Claim C6, amended: a raw recipe passes the acceptance check iff its
(trimmed) title is non-empty, its id and serving count are finite, its first
instruction block carries a `steps` array (possibly empty), its ingredient
array is present (possibly empty), and its nutrition object holds finite
protein/fat/carbohydrate amounts and a complete caloric-breakdown triple;
every recipe failing the check is dropped by the filter, and when no
candidate survives the caller receives the no-results signal with the state
untouched.  Otherwise every survivor is converted — reusing a refreshed
recipe-book copy when its id is already in the book, converting the raw
payload afresh otherwise — and placed into the mode's search results: the
browse array is appended in order in every non-ingredient-search mode, and
the ingredient-search array is re-sorted after each insertion in
ingredient-search mode.  The hypothesis is the recipe-book invariant that
every stored recipe carries an actual ingredient array (a sentinel there
throws inside `getOrCreateRecipeObject`). -/
theorem C6_detail_retrieval {sing : String → String} {st : AppState}
    {data : List RawRecipe} {mode : String}
    (hbook : ∀ q ∈ st.recipeBook, q.ingredients ≠ none) :
    (∀ recipe : RawRecipe, isValidRecipe recipe = true ↔ C6Presence recipe) ∧
    ∃ objs : List Recipe,
      (data.filter isValidRecipe).map (fun r => getOrCreateRecipeObject sing st r mode) =
        objs.map some ∧
      loadRecipeDetails sing st data mode =
        (if data.filter isValidRecipe = [] then some (.noResults, st)
         else some (.ok, objs.foldl (fun s obj => populateSearchResults s obj mode) st)) ∧
      ((mode == "ingredientSearch") = false →
        objs.foldl (fun s obj => populateSearchResults s obj mode) st =
          { st with browseSearchResults := st.browseSearchResults ++ objs }) ∧
      ((mode == "ingredientSearch") = true →
        objs.foldl (fun s obj => populateSearchResults s obj mode) st =
          { st with
            ingredientSearchResults :=
              objs.foldl (fun acc obj => sortByNumMissing (acc ++ [obj]))
                st.ingredientSearchResults }) := by
  constructor
  · intro recipe
    unfold isValidRecipe C6Presence
    constructor
    · intro h
      simp only [Bool.and_eq_true] at h
      obtain ⟨⟨⟨⟨⟨⟨h1, h2⟩, h3⟩, h4⟩, h5⟩, h6⟩, h7⟩ := h
      refine ⟨by simpa using h1, Option.ne_none_iff_isSome.mpr h2,
        Option.ne_none_iff_isSome.mpr h3, ?_, ?_, ?_⟩
      · revert h4
        cases hai : recipe.analyzedInstructions with
        | none => intro h4; exact absurd h4 (by simp)
        | some blocks =>
          cases blocks with
          | nil => intro h4; exact absurd h4 (by simp)
          | cons firstBlock rest =>
            intro h4
            obtain ⟨steps, hsteps⟩ := Option.isSome_iff_exists.mp (by simpa using h4)
            exact ⟨firstBlock, rest, steps, rfl, hsteps⟩
      · obtain ⟨ings, hings⟩ := Option.isSome_iff_exists.mp h5
        exact ⟨ings, hings⟩
      · obtain ⟨n, hnut⟩ := Option.isSome_iff_exists.mp h6
        rw [hnut] at h7
        simp only [Bool.and_eq_true] at h7
        obtain ⟨⟨⟨⟨⟨hp, hf⟩, hc⟩, hbp⟩, hbf⟩, hbc⟩ := h7
        refine ⟨n, hnut, ?_, ?_, ?_, Option.ne_none_iff_isSome.mpr hbp,
          Option.ne_none_iff_isSome.mpr hbf, Option.ne_none_iff_isSome.mpr hbc⟩
        · revert hp
          cases hfp : n.nutrients.find? (fun o => o.name == "Protein") with
          | none => intro hp; exact absurd hp (by simp)
          | some obj =>
            intro hp
            exact ⟨obj, rfl, Option.ne_none_iff_isSome.mpr (by simpa using hp)⟩
        · revert hf
          cases hff : n.nutrients.find? (fun o => o.name == "Fat") with
          | none => intro hf; exact absurd hf (by simp)
          | some obj =>
            intro hf
            exact ⟨obj, rfl, Option.ne_none_iff_isSome.mpr (by simpa using hf)⟩
        · revert hc
          cases hfc : n.nutrients.find? (fun o => o.name == "Carbohydrates") with
          | none => intro hc; exact absurd hc (by simp)
          | some obj =>
            intro hc
            exact ⟨obj, rfl, Option.ne_none_iff_isSome.mpr (by simpa using hc)⟩
    · intro h
      obtain ⟨h1, h2, h3, ⟨firstBlock, rest, steps, hai, hsteps⟩, ⟨ings, hings⟩,
        n, hnut, ⟨objP, hfp, hap⟩, ⟨objF, hff, haf⟩, ⟨objC, hfc, hac⟩, hbp, hbf, hbc⟩ := h
      rw [hai, hings, hnut]
      simp only []
      rw [hfp, hff, hfc]
      simp [hsteps, Option.ne_none_iff_isSome.mp h2, Option.ne_none_iff_isSome.mp h3,
        Option.ne_none_iff_isSome.mp hap, Option.ne_none_iff_isSome.mp haf,
        Option.ne_none_iff_isSome.mp hac, Option.ne_none_iff_isSome.mp hbp,
        Option.ne_none_iff_isSome.mp hbf, Option.ne_none_iff_isSome.mp hbc, h1]
  · obtain ⟨objs, hmap, hrun⟩ := loadValidRecipes_run (data.filter isValidRecipe) st hbook
    refine ⟨objs, hmap, ?_, fun hm => foldl_populate_browse hm objs st,
      fun hm => foldl_populate_ingredient hm objs st⟩
    unfold loadRecipeDetails
    by_cases hempty : data.filter isValidRecipe = []
    · rw [if_pos hempty, hempty]
      simp
    · rw [if_neg hempty]
      have hlen : ¬ (data.filter isValidRecipe).length = 0 := by
        simpa [List.length_eq_zero] using hempty
      simp only [if_neg hlen]
      rw [hrun]

/-- Claim C6 witness: the amended characterization and pipeline equation at
a concrete browse-mode call (empty book, the counterexample candidate). -/
theorem C6_detail_retrieval_witness :
    (∀ recipe : RawRecipe, isValidRecipe recipe = true ↔ C6Presence recipe) ∧
    ∃ objs : List Recipe,
      ([c6Raw].filter isValidRecipe).map
          (fun r => getOrCreateRecipeObject id (sampleState emptyDayPlan) r "browseSearch") =
        objs.map some ∧
      loadRecipeDetails id (sampleState emptyDayPlan) [c6Raw] "browseSearch" =
        (if [c6Raw].filter isValidRecipe = []
         then some (.noResults, sampleState emptyDayPlan)
         else some (.ok, objs.foldl
           (fun s obj => populateSearchResults s obj "browseSearch")
           (sampleState emptyDayPlan))) ∧
      (("browseSearch" == "ingredientSearch") = false →
        objs.foldl (fun s obj => populateSearchResults s obj "browseSearch")
            (sampleState emptyDayPlan) =
          { sampleState emptyDayPlan with
            browseSearchResults :=
              (sampleState emptyDayPlan).browseSearchResults ++ objs }) ∧
      (("browseSearch" == "ingredientSearch") = true →
        objs.foldl (fun s obj => populateSearchResults s obj "browseSearch")
            (sampleState emptyDayPlan) =
          { sampleState emptyDayPlan with
            ingredientSearchResults :=
              objs.foldl (fun acc obj => sortByNumMissing (acc ++ [obj]))
                (sampleState emptyDayPlan).ingredientSearchResults }) :=
  @C6_detail_retrieval id (sampleState emptyDayPlan) [c6Raw] "browseSearch" (by decide)

/-! ## Claim C5: servings round trip -/

theorem roundtrip_quantity (q : Option ℚ) {s s' : ℚ} (hs0 : s ≠ 0) (hs'0 : s' ≠ 0) :
    jsMul (jsMul q (some (s' / s))) (some (s / s')) = q := by
  cases q with
  | none => rfl
  | some x =>
    have hx : x * (s' / s) * (s / s') = x := by field_simp
    simp only [jsMul, Option.some.injEq]
    exact hx

theorem roundtrip_scaled (f : Option ℚ) {s s' : ℚ} (hs0 : s ≠ 0) (hs'0 : s' ≠ 0) :
    (if (if f.isSome then jsMul f (some (s' / s)) else f).isSome = true
     then jsMul (if f.isSome then jsMul f (some (s' / s)) else f) (some (s / s'))
     else (if f.isSome then jsMul f (some (s' / s)) else f)) = f := by
  cases f with
  | none => simp
  | some x =>
    have hx : x * (s' / s) * (s / s') = x := by field_simp
    simp only [Option.isSome_some, if_true, jsMul, Option.isSome_some, Option.some.injEq]
    exact hx

theorem updateIngredientQuantities_roundtrip (ings : List Ingredient) {s s' : ℚ}
    (hs0 : s ≠ 0) (hs'0 : s' ≠ 0) :
    updateIngredientQuantities (updateIngredientQuantities ings (some (s' / s)))
      (some (s / s')) = ings := by
  unfold updateIngredientQuantities
  rw [List.map_map]
  induction ings with
  | nil => rfl
  | cons i rest ih =>
    simp only [List.map_cons, Function.comp_apply, List.cons.injEq]
    refine ⟨?_, ih⟩
    rw [roundtrip_quantity i.quantity hs0 hs'0]

/-- The two successive `adjustServings` rescalings cancel exactly on every
ingredient quantity and every nutrient, and restore the serving count. -/
theorem adjustedRecipe_roundtrip_fields (recipe : Recipe) (ings : List Ingredient)
    {s s' : ℚ} (hs : recipe.servings = some s) (hs0 : s ≠ 0) (hs'0 : s' ≠ 0) :
    (adjustedRecipe (adjustedRecipe recipe ings (some s'))
        (updateIngredientQuantities ings (jsDiv (some s') recipe.servings))
        (some s)).ingredients = some ings ∧
    (adjustedRecipe (adjustedRecipe recipe ings (some s'))
        (updateIngredientQuantities ings (jsDiv (some s') recipe.servings))
        (some s)).servings = some s ∧
    (adjustedRecipe (adjustedRecipe recipe ings (some s'))
        (updateIngredientQuantities ings (jsDiv (some s') recipe.servings))
        (some s)).calories = recipe.calories ∧
    (adjustedRecipe (adjustedRecipe recipe ings (some s'))
        (updateIngredientQuantities ings (jsDiv (some s') recipe.servings))
        (some s)).saturatedFat = recipe.saturatedFat ∧
    (adjustedRecipe (adjustedRecipe recipe ings (some s'))
        (updateIngredientQuantities ings (jsDiv (some s') recipe.servings))
        (some s)).sugar = recipe.sugar ∧
    (adjustedRecipe (adjustedRecipe recipe ings (some s'))
        (updateIngredientQuantities ings (jsDiv (some s') recipe.servings))
        (some s)).fiber = recipe.fiber ∧
    (adjustedRecipe (adjustedRecipe recipe ings (some s'))
        (updateIngredientQuantities ings (jsDiv (some s') recipe.servings))
        (some s)).sodium = recipe.sodium ∧
    (adjustedRecipe (adjustedRecipe recipe ings (some s'))
        (updateIngredientQuantities ings (jsDiv (some s') recipe.servings))
        (some s)).cholesterol = recipe.cholesterol ∧
    (adjustedRecipe (adjustedRecipe recipe ings (some s'))
        (updateIngredientQuantities ings (jsDiv (some s') recipe.servings))
        (some s)).iron = recipe.iron ∧
    (adjustedRecipe (adjustedRecipe recipe ings (some s'))
        (updateIngredientQuantities ings (jsDiv (some s') recipe.servings))
        (some s)).zinc = recipe.zinc ∧
    (adjustedRecipe (adjustedRecipe recipe ings (some s'))
        (updateIngredientQuantities ings (jsDiv (some s') recipe.servings))
        (some s)).calcium = recipe.calcium ∧
    (adjustedRecipe (adjustedRecipe recipe ings (some s'))
        (updateIngredientQuantities ings (jsDiv (some s') recipe.servings))
        (some s)).magnesium = recipe.magnesium ∧
    (adjustedRecipe (adjustedRecipe recipe ings (some s'))
        (updateIngredientQuantities ings (jsDiv (some s') recipe.servings))
        (some s)).protein = recipe.protein ∧
    (adjustedRecipe (adjustedRecipe recipe ings (some s'))
        (updateIngredientQuantities ings (jsDiv (some s') recipe.servings))
        (some s)).carbs = recipe.carbs ∧
    (adjustedRecipe (adjustedRecipe recipe ings (some s'))
        (updateIngredientQuantities ings (jsDiv (some s') recipe.servings))
        (some s)).fats = recipe.fats := by
  have hr1 : jsDiv (some s') recipe.servings = some (s' / s) := by
    rw [hs]; simp [jsDiv, hs0]
  have hr2 : jsDiv (some s) (some s') = some (s / s') := by
    simp [jsDiv, hs'0]
  refine ⟨?_, rfl, ?_, ?_, ?_, ?_, ?_, ?_, ?_, ?_, ?_, ?_, ?_, ?_, ?_⟩ <;>
    simp only [adjustedRecipe, updateNutrientQuantities, updatePercentDV, hr1, hr2]
  · rw [updateIngredientQuantities_roundtrip ings hs0 hs'0]
  all_goals exact roundtrip_scaled _ hs0 hs'0

/-- Claim C5, counterexample.  The claim quantifies over every starting
serving count `s`; with `s = 51` (a value the API can deliver — validation
only requires finiteness) and `s' = 2`, the first adjustment scales every
quantity by `2 / 51`, and the adjustment back to `51` is silently rejected
(`51 > 50`), so the ingredient quantity ends at `4 / 51`, nowhere near the
original `2` (far beyond any floating-point rounding). -/
theorem C5_roundtrip_counterexample :
    ∃ st1, adjustServings { sampleState emptyDayPlan with recipeBook := [sampleRecipe 1 51] }
        1 none .recipeBook (some (some 2)) = some st1 ∧
      adjustServings st1 1 none .recipeBook (some (some 51)) = some st1 ∧
      ∃ r2, getRecipe st1 1 .recipeBook = some r2 ∧
        (sampleRecipe 1 51).ingredients = some [sampleIngredient] ∧
        sampleIngredient.quantity = some 2 ∧
        r2.ingredients = some [{ sampleIngredient with quantity := some (4 / 51) }] ∧
        ¬((4 : ℚ) / 51 = 2) := by
  have hns : ∀ d m, Source.recipeBook ≠ Source.mealPlan d m := by intro d m h; cases h
  have hfound : getRecipe { sampleState emptyDayPlan with recipeBook := [sampleRecipe 1 51] }
      1 .recipeBook = some (sampleRecipe 1 51) := by decide
  have hing : (sampleRecipe 1 51).ingredients = some [sampleIngredient] := by decide
  have hvalid1 : isValidServings (calculateUpdatedServings (sampleRecipe 1 51).servings
      none (some (some 2))) = true := by decide
  have hrun1 := adjustServings_valid_browse hns hfound hing hvalid1
  have hid1 : (adjustedRecipe (sampleRecipe 1 51) [sampleIngredient]
      (calculateUpdatedServings (sampleRecipe 1 51).servings none (some (some 2)))).id = 1 := by
    rw [adjustedRecipe_id]; decide
  have hfound1 := getRecipe_sync hns hid1 (getRecipe_writeBack hfound _ hid1)
  have hinvalid2 : isValidServings (calculateUpdatedServings
      (adjustedRecipe (sampleRecipe 1 51) [sampleIngredient]
        (calculateUpdatedServings (sampleRecipe 1 51).servings none (some (some 2)))).servings
      none (some (some 51))) = false := by decide
  have hrun2 := adjustServings_invalid hfound1 hinvalid2
  refine ⟨_, hrun1, hrun2, _, hfound1, hing, by decide, ?_, by norm_num⟩
  have hform : (adjustedRecipe (sampleRecipe 1 51) [sampleIngredient]
      (calculateUpdatedServings (sampleRecipe 1 51).servings none (some (some 2)))).ingredients =
      some (updateIngredientQuantities [sampleIngredient] (jsDiv (some 2) (some 51))) := rfl
  rw [hform]
  have h51 : ¬((51 : ℚ) = 0) := by norm_num
  simp only [jsDiv, if_neg h51, updateIngredientQuantities, List.map_cons, List.map_nil,
    jsMul, sampleIngredient]
  norm_num

/-- Claim C5, amended: the round trip restores every ingredient quantity and
every nutrient value exactly (the code multiplies each by `s'/s` and then by
`s/s'`), provided the starting serving count `s` itself lies in `[1, 50]` —
otherwise the adjustment back to `s` is silently rejected and the values
remain scaled. -/
theorem C5_servings_roundtrip {st : AppState} {recipeId : ℤ} {source : Source}
    {recipe : Recipe} {ings : List Ingredient} {s s' : ℚ}
    (hfound : getRecipe st recipeId source = some recipe)
    (hing : recipe.ingredients = some ings)
    (hs : recipe.servings = some s)
    (hs1 : 1 ≤ s) (hs50 : s ≤ 50) (hs'1 : 1 ≤ s') (hs'50 : s' ≤ 50) :
    ∃ st1 st2 r2,
      adjustServings st recipeId none source (some (some s')) = some st1 ∧
      adjustServings st1 recipeId none source (some (some s)) = some st2 ∧
      getRecipe st2 recipeId source = some r2 ∧
      r2.ingredients = some ings ∧ r2.servings = some s ∧
      r2.calories = recipe.calories ∧ r2.saturatedFat = recipe.saturatedFat ∧
      r2.sugar = recipe.sugar ∧ r2.fiber = recipe.fiber ∧
      r2.sodium = recipe.sodium ∧ r2.cholesterol = recipe.cholesterol ∧
      r2.iron = recipe.iron ∧ r2.zinc = recipe.zinc ∧
      r2.calcium = recipe.calcium ∧ r2.magnesium = recipe.magnesium ∧
      r2.protein = recipe.protein ∧ r2.carbs = recipe.carbs ∧
      r2.fats = recipe.fats := by
  have hs0 : s ≠ 0 := by positivity
  have hs'0 : s' ≠ 0 := by positivity
  have hvalid1 : isValidServings
      (calculateUpdatedServings recipe.servings none (some (some s'))) = true := by
    unfold calculateUpdatedServings isValidServings
    simp [not_lt.mpr hs'1, not_lt.mpr hs'50]
  have hid1 : (adjustedRecipe recipe ings
      (calculateUpdatedServings recipe.servings none (some (some s')))).id = recipeId := by
    rw [adjustedRecipe_id]; exact getRecipe_id hfound
  have hcalc1 : calculateUpdatedServings recipe.servings none (some (some s')) = some s' := rfl
  obtain ⟨hfields1, hfields2, hfieldsN⟩ := adjustedRecipe_roundtrip_fields recipe ings hs hs0 hs'0
  -- the recipe located after the first adjustment
  have hr1ing : (adjustedRecipe recipe ings (some s')).ingredients =
      some (updateIngredientQuantities ings (jsDiv (some s') recipe.servings)) := rfl
  have hr1serv : (adjustedRecipe recipe ings (some s')).servings = some s' := rfl
  have hvalid2 : isValidServings
      (calculateUpdatedServings (adjustedRecipe recipe ings (some s')).servings none
        (some (some s))) = true := by
    unfold calculateUpdatedServings isValidServings
    simp [not_lt.mpr hs1, not_lt.mpr hs50]
  have hid2 : (adjustedRecipe (adjustedRecipe recipe ings (some s'))
      (updateIngredientQuantities ings (jsDiv (some s') recipe.servings))
      (calculateUpdatedServings (adjustedRecipe recipe ings (some s')).servings none
        (some (some s)))).id = recipeId := by
    rw [adjustedRecipe_id, adjustedRecipe_id]; exact getRecipe_id hfound
  cases hsrc : source with
  | mealPlan d m =>
    subst hsrc
    have hrun1 := adjustServings_valid_mealPlan hfound hing hvalid1
    rw [hcalc1] at hrun1
    have hfound1 := getRecipe_writeBack hfound
      (adjustedRecipe recipe ings (some s')) (by rw [adjustedRecipe_id]; exact getRecipe_id hfound)
    have hrun2 := adjustServings_valid_mealPlan hfound1 hr1ing hvalid2
    have hfound2 := getRecipe_writeBack hfound1 _ hid2
    exact ⟨_, _, _, hrun1, hrun2, hfound2, hfields1, hfields2, hfieldsN⟩
  | ingredientSearch =>
    subst hsrc
    have hns : ∀ d m, Source.ingredientSearch ≠ Source.mealPlan d m := by intro d m h; cases h
    have hrun1 := adjustServings_valid_browse hns hfound hing hvalid1
    rw [hcalc1] at hrun1
    have hfound1 := getRecipe_sync hns
      (by rw [adjustedRecipe_id]; exact getRecipe_id hfound)
      (getRecipe_writeBack hfound (adjustedRecipe recipe ings (some s'))
        (by rw [adjustedRecipe_id]; exact getRecipe_id hfound))
    have hrun2 := adjustServings_valid_browse hns hfound1 hr1ing hvalid2
    have hfound2 := getRecipe_sync hns hid2 (getRecipe_writeBack hfound1 _ hid2)
    exact ⟨_, _, _, hrun1, hrun2, hfound2, hfields1, hfields2, hfieldsN⟩
  | browseRecipeSearch =>
    subst hsrc
    have hns : ∀ d m, Source.browseRecipeSearch ≠ Source.mealPlan d m := by intro d m h; cases h
    have hrun1 := adjustServings_valid_browse hns hfound hing hvalid1
    rw [hcalc1] at hrun1
    have hfound1 := getRecipe_sync hns
      (by rw [adjustedRecipe_id]; exact getRecipe_id hfound)
      (getRecipe_writeBack hfound (adjustedRecipe recipe ings (some s'))
        (by rw [adjustedRecipe_id]; exact getRecipe_id hfound))
    have hrun2 := adjustServings_valid_browse hns hfound1 hr1ing hvalid2
    have hfound2 := getRecipe_sync hns hid2 (getRecipe_writeBack hfound1 _ hid2)
    exact ⟨_, _, _, hrun1, hrun2, hfound2, hfields1, hfields2, hfieldsN⟩
  | recipeBook =>
    subst hsrc
    have hns : ∀ d m, Source.recipeBook ≠ Source.mealPlan d m := by intro d m h; cases h
    have hrun1 := adjustServings_valid_browse hns hfound hing hvalid1
    rw [hcalc1] at hrun1
    have hfound1 := getRecipe_sync hns
      (by rw [adjustedRecipe_id]; exact getRecipe_id hfound)
      (getRecipe_writeBack hfound (adjustedRecipe recipe ings (some s'))
        (by rw [adjustedRecipe_id]; exact getRecipe_id hfound))
    have hrun2 := adjustServings_valid_browse hns hfound1 hr1ing hvalid2
    have hfound2 := getRecipe_sync hns hid2 (getRecipe_writeBack hfound1 _ hid2)
    exact ⟨_, _, _, hrun1, hrun2, hfound2, hfields1, hfields2, hfieldsN⟩

/-- Claim C5 witness: round-tripping a recipe-book recipe from 2 servings to
5 and back to 2 restores the quantities and nutrients. -/
theorem C5_servings_roundtrip_witness :
    ∃ st1 st2 r2,
      adjustServings { sampleState emptyDayPlan with recipeBook := [sampleRecipe 1 2] }
        1 none .recipeBook (some (some 5)) = some st1 ∧
      adjustServings st1 1 none .recipeBook (some (some 2)) = some st2 ∧
      getRecipe st2 1 .recipeBook = some r2 ∧
      r2.ingredients = some [sampleIngredient] ∧ r2.servings = some 2 ∧
      r2.calories = (sampleRecipe 1 2).calories ∧
      r2.saturatedFat = (sampleRecipe 1 2).saturatedFat ∧
      r2.sugar = (sampleRecipe 1 2).sugar ∧ r2.fiber = (sampleRecipe 1 2).fiber ∧
      r2.sodium = (sampleRecipe 1 2).sodium ∧
      r2.cholesterol = (sampleRecipe 1 2).cholesterol ∧
      r2.iron = (sampleRecipe 1 2).iron ∧ r2.zinc = (sampleRecipe 1 2).zinc ∧
      r2.calcium = (sampleRecipe 1 2).calcium ∧
      r2.magnesium = (sampleRecipe 1 2).magnesium ∧
      r2.protein = (sampleRecipe 1 2).protein ∧
      r2.carbs = (sampleRecipe 1 2).carbs ∧
      r2.fats = (sampleRecipe 1 2).fats :=
  @C5_servings_roundtrip { sampleState emptyDayPlan with recipeBook := [sampleRecipe 1 2] }
    1 .recipeBook (sampleRecipe 1 2) [sampleIngredient] 2 5
    (by decide) (by decide) (by decide) (by norm_num) (by norm_num) (by norm_num) (by norm_num)

/-! ## Claim C9: deletion with an absent id removes the last entry -/

/-- Claim C9: when the meal-slot list does not contain the requested id,
`deleteRecipeFromMealPlan` passes the not-found index `-1` to `splice`, which
removes the slot's last element (and leaves an empty slot unchanged);
likewise `removeRecipeFromBook` with an id absent from the recipe book drops
the book's last entry (`List.dropLast` covers both the non-empty and the
empty case). -/
theorem C9_absent_id_removes_last {st : AppState} {recipeId d : ℤ} {m : MealSlot}
    {week : WeekPlan} {dp : DayPlan}
    (hwf : WellFormedPlan st.mealPlan)
    (hwk : lookupA st.mealPlan (getMondayOfTheWeek d) = some week)
    (hdp : lookupA week d = some dp)
    (habsent : ∀ r ∈ dp.meals.get m, r.id ≠ recipeId)
    (hbook : ∀ r ∈ st.recipeBook, r.id ≠ recipeId) :
    (∃ st', deleteRecipeFromMealPlan st recipeId d m = some st' ∧
      ∃ week' dp', lookupA st'.mealPlan (getMondayOfTheWeek d) = some week' ∧
        lookupA week' d = some dp' ∧
        dp'.meals.get m = (dp.meals.get m).dropLast) ∧
    (removeRecipeFromBook st recipeId).recipeBook = st.recipeBook.dropLast := by
  have hsplice : ∀ (l : List Recipe), (∀ r ∈ l, r.id ≠ recipeId) →
      jsSpliceRemoveOne l (jsFindIndex (fun meal => meal.id == recipeId) l) = l.dropLast := by
    intro l hl
    rw [jsFindIndex_eq_neg_one (fun r hr => by simp [hl r hr]), jsSpliceRemoveOne_neg_one]
  constructor
  · obtain ⟨st', hrun, _, _, _, _, _, hwkmain⟩ :=
      deleteRecipeFromMealPlan_run recipeId m hwf hwk (lookupA_mem_keys hdp)
    refine ⟨st', hrun, _, resetAndSumDayNutrition (deleteFromDayPlan recipeId m dp),
      hwkmain, ?_, ?_⟩
    · rw [lookupA_recompFlag, lookupA_setA]
      simp [hdp, lookupA_mem_keys hdp]
    · rw [resetAndSum_meals]
      simp only [deleteFromDayPlan]
      rw [Meals.get_set_self]
      exact hsplice _ habsent
  · unfold removeRecipeFromBook
    exact hsplice st.recipeBook hbook

/-- Claim C9 witness: a two-recipe breakfast slot and a one-recipe book,
deleting id `99` which is present in neither. -/
theorem C9_absent_id_removes_last_witness :
    (∃ st', deleteRecipeFromMealPlan
        { sampleState c9DayPlan with recipeBook := [sampleRecipe 7 2] } 99 4 .breakfast =
          some st' ∧
      ∃ week' dp', lookupA st'.mealPlan (getMondayOfTheWeek 4) = some week' ∧
        lookupA week' 4 = some dp' ∧
        dp'.meals.get .breakfast = (c9DayPlan.meals.get .breakfast).dropLast) ∧
    (removeRecipeFromBook { sampleState c9DayPlan with recipeBook := [sampleRecipe 7 2] }
        99).recipeBook = [sampleRecipe 7 2].dropLast :=
  @C9_absent_id_removes_last
    { sampleState c9DayPlan with recipeBook := [sampleRecipe 7 2] } 99 4 .breakfast
    [(4, c9DayPlan), (5, emptyDayPlan)] c9DayPlan
    (by decide) (by decide) (by decide) (by decide) (by decide)

/-! ## Claim C7: ingredient availability resolution -/

/-- Claim C7, counterexample.  With an empty pantry the claim's rule (4)
cannot fire (no synonym can be a substring match against pantry contents),
so the claim predicts `unavailable` for the normalized ingredient
`"parmesan"`; the code, whose synonym check never consults the pantry,
returns `potentiallyAvailable` (cheese group).  The claim as stated is
therefore false at this input. -/
theorem C7_availability_counterexample :
    specC7AvailabilityState [] "parmesan" = "unavailable" ∧
    (getIngredientAvailabilityNormalized [] "parmesan").availabilityState = "potentiallyAvailable" ∧
    getIngredientAvailabilityNormalized [] "parmesan" = .potentiallyAvailable "cheese" := by
  refine ⟨by decide, by decide, by decide⟩

/-- Claim C7, amended: for every pantry state and every ingredient name
(already case-normalized and singularized), availability is decided by the
following rules, first match winning: (1) exact membership in the fixed
common-household-staples list gives the household state; (2) exact equality
with a pantry entry gives the definitely-available state; (3) a substring
match in either direction against a pantry entry gives the
potentially-available state; (4) — replacing the claimed rule — the pantry
is not consulted and only the first curated synonym group (cheese) is
examined: if some synonym of that group is a substring of the ingredient
name the state is potentially-available; (5) otherwise unavailable. -/
theorem C7_availability_rules (pantry : List String) (n : String) :
    (n ∈ COMMON_PANTRY_ITEMS →
      (getIngredientAvailabilityNormalized pantry n).availabilityState = "householdItem") ∧
    (n ∉ COMMON_PANTRY_ITEMS → n ∈ pantry →
      (getIngredientAvailabilityNormalized pantry n).availabilityState = "definitelyAvailable") ∧
    (n ∉ COMMON_PANTRY_ITEMS → n ∉ pantry →
      (∃ p ∈ pantry, jsIncludes p n = true ∨ jsIncludes n p = true) →
      (getIngredientAvailabilityNormalized pantry n).availabilityState = "potentiallyAvailable") ∧
    (n ∉ COMMON_PANTRY_ITEMS → n ∉ pantry →
      (∀ p ∈ pantry, jsIncludes p n = false ∧ jsIncludes n p = false) →
      (∃ s ∈ firstSynonymGroup.2, jsIncludes n s = true) →
      (getIngredientAvailabilityNormalized pantry n).availabilityState = "potentiallyAvailable") ∧
    (n ∉ COMMON_PANTRY_ITEMS → n ∉ pantry →
      (∀ p ∈ pantry, jsIncludes p n = false ∧ jsIncludes n p = false) →
      (∀ s ∈ firstSynonymGroup.2, jsIncludes n s = false) →
      (getIngredientAvailabilityNormalized pantry n).availabilityState = "unavailable") := by
  have hhous_none : n ∉ COMMON_PANTRY_ITEMS → checkHouseholdItem n = none := by
    intro h
    have hfind : COMMON_PANTRY_ITEMS.find? (fun commonItem => n == commonItem) = none := by
      rw [List.find?_eq_none]
      intro c hc he
      exact h (by rw [eq_of_beq he]; exact hc)
    simp [checkHouseholdItem, hfind]
  have hexact_none : n ∉ pantry → checkExactMatch pantry n = none := by
    intro h
    simp only [checkExactMatch, ite_eq_right_iff]
    intro hany
    obtain ⟨p, hp, hpn⟩ := List.any_eq_true.mp hany
    exact absurd ((beq_iff_eq).mp hpn ▸ hp) h
  have hpartial_none : (∀ p ∈ pantry, jsIncludes p n = false ∧ jsIncludes n p = false) →
      checkPartialMatch pantry n = none := by
    intro h
    have h1 : pantry.find? (fun p => jsIncludes p n) = none := by
      rw [List.find?_eq_none]
      intro p hp
      simp [(h p hp).1]
    have h2 : pantry.find? (fun p => jsIncludes n p) = none := by
      rw [List.find?_eq_none]
      intro p hp
      simp [(h p hp).2]
    simp [checkPartialMatch, h1, h2, Option.orElse]
  refine ⟨?_, ?_, ?_, ?_, ?_⟩
  · intro h
    have : (COMMON_PANTRY_ITEMS.find? (fun c => n == c)).isSome := by
      rw [List.find?_isSome]
      exact ⟨n, h, by simp⟩
    obtain ⟨c, hc⟩ := Option.isSome_iff_exists.mp this
    simp [getIngredientAvailabilityNormalized, checkHouseholdItem, hc,
      Availability.availabilityState]
  · intro h1 h2
    have hany : pantry.any (fun p => p == n) = true :=
      List.any_eq_true.mpr ⟨n, h2, by simp⟩
    simp [getIngredientAvailabilityNormalized, hhous_none h1, checkExactMatch, hany,
      Availability.availabilityState]
  · intro h1 h2 h3
    have : ((pantry.find? (fun p => jsIncludes p n)).orElse
        (fun _ => pantry.find? (fun p => jsIncludes n p))).isSome := by
      cases hA : pantry.find? (fun p => jsIncludes p n) with
      | some m => simp [Option.orElse, hA]
      | none =>
        rw [List.find?_eq_none] at hA
        obtain ⟨p, hp, hinc⟩ := h3
        rcases hinc with hinc | hinc
        · exact absurd hinc (by simpa using hA p hp)
        · have : (pantry.find? (fun p => jsIncludes n p)).isSome := by
            rw [List.find?_isSome]
            exact ⟨p, hp, hinc⟩
          obtain ⟨m, hm⟩ := Option.isSome_iff_exists.mp this
          simp [Option.orElse, hm]
    obtain ⟨m, hm⟩ := Option.isSome_iff_exists.mp this
    simp [getIngredientAvailabilityNormalized, hhous_none h1, hexact_none h2,
      checkPartialMatch, hm, Availability.availabilityState]
  · intro h1 h2 h3 h4
    obtain ⟨s, hs, hinc⟩ := h4
    have : ((INGREDIENT_SYNONYMS.headD ("", [])).2.find?
        (fun synonym => jsIncludes n synonym)).isSome := by
      rw [List.find?_isSome]
      exact ⟨s, hs, hinc⟩
    obtain ⟨m, hm⟩ := Option.isSome_iff_exists.mp this
    have hsyn : checkSynonymMatch n = some (.potentiallyAvailable "cheese") := by
      simp only [checkSynonymMatch, INGREDIENT_SYNONYMS] at hm ⊢
      simp only [List.headD] at hm
      rw [hm]
      rfl
    simp [getIngredientAvailabilityNormalized, hhous_none h1, hexact_none h2,
      hpartial_none h3, hsyn, Availability.availabilityState]
  · intro h1 h2 h3 h4
    have hsyn : checkSynonymMatch n = none := by
      simp only [firstSynonymGroup, INGREDIENT_SYNONYMS, List.headD_cons] at h4
      have hfind : (INGREDIENT_SYNONYMS.headD ("", [])).2.find?
          (fun synonym => jsIncludes n synonym) = none := by
        rw [List.find?_eq_none]
        intro s hs
        simp only [INGREDIENT_SYNONYMS, List.headD_cons] at hs
        simp [h4 s hs]
      simp only [INGREDIENT_SYNONYMS, List.headD_cons] at hfind
      simp [checkSynonymMatch, INGREDIENT_SYNONYMS, hfind]
    simp [getIngredientAvailabilityNormalized, hhous_none h1, hexact_none h2,
      hpartial_none h3, hsyn, Availability.availabilityState]

/-- Claim C7 witness: the amended rules applied at a concrete pantry and
ingredient (rule (3): a pantry entry is a substring of the ingredient). -/
theorem C7_availability_rules_witness :
    (getIngredientAvailabilityNormalized ["tomato"] "tomato sauce").availabilityState =
      "potentiallyAvailable" :=
  (C7_availability_rules ["tomato"] "tomato sauce").2.2.1 (by decide) (by decide)
    ⟨"tomato", by decide, by decide⟩

end SmartSpoon
